import Mathlib

set_option autoImplicit false

/-!
Verification of the `controllerx` dynamic-inventory plugin
(`inventory_plugins/controllerx.py`).

The development shallowly embeds the filtering-and-graph-assembly core of
`InventoryModule.parse` (lines 192-306 of the source).  JSON values are an
inductive `Val`; Python dicts are association lists kept in insertion order
(`six.iteritems` iterates dicts in insertion order); Python sets
(`allowed_hosts`, `allowed_groups`) are lists observed only through
membership, so duplicates are harmless.  The Ansible `InventoryData` object
(`self.inventory`) is embedded as `Graph`: `add_group` / `add_host` /
`add_child` deduplicate, and `set_variable` resolves its entity argument by
name (in Ansible, groups take precedence over hosts, so a host sharing a
group's name writes into the group's variables; the flat name-keyed `vars`
store reproduces exactly that observable behaviour).  `reconcile_inventory`
(line 306) is an external Ansible normalization step and is outside the
plugin's own graph construction, which is what the properties below are
about.

Regular expressions appear in the source only through `re.compile` (which
either raises `re.error` or yields a pattern) and `pattern.search(name)`
(observed only for truthiness), so a compiled pattern is embedded as a
predicate `String → Bool` and a configured-but-uncompiled pattern as
`RegexSrc` (a valid matcher or an invalid source string).
-/

namespace ControllerX

/-- JSON-like variable values carried verbatim through the plugin. -/
inductive Val where
  | str : String → Val
  | obj : List (String × Val) → Val

/-- One top-level entry of the raw inventory document, as the code reads it:
`group_content.get('hosts', [])`, `.get('children', [])`, `.get('vars', {})`
(absent keys default to empty). -/
structure GroupContent where
  hosts : List String := []
  children : List String := []
  vars : List (String × Val) := []

/-- The raw inventory document returned by the `script` endpoint.
`entries` are all top-level key/value pairs in insertion order (the `_meta`
key included, when present, since `six.iteritems(inventory)` iterates over
it too); `hostvars` is `inventory['_meta']['hostvars']`. -/
structure RawDoc where
  entries : List (String × GroupContent)
  hostvars : List (String × List (String × Val))

/-- The three compiled filter patterns (`None` when the option is unset). -/
structure Filters where
  hostsPattern : Option (String → Bool) := none
  hostgroupsPattern : Option (String → Bool) := none
  groupsPattern : Option (String → Bool) := none

/-- Line 253: `if groups_pattern and not groups_pattern.search(group_name)
and group_name != 'all': continue`. -/
def groupSkip (f : Filters) (name : String) : Bool :=
  match f.groupsPattern with
  | some p => !p name && name != "all"
  | none => false

/-- Line 258: `not hostgroups_pattern or hostgroups_pattern.search(group_name)`. -/
def hostgroupPass (f : Filters) (name : String) : Bool :=
  match f.hostgroupsPattern with
  | some p => p name
  | none => true

/-- Lines 259-264: a host survives the hosts filter when no pattern is set
or the pattern matches. -/
def hostPass (f : Filters) (h : String) : Bool :=
  match f.hostsPattern with
  | some p => p h
  | none => true

/-- Append an element unless already present (Ansible's `add_group`,
`add_host`, `Group.add_child_group` all deduplicate). -/
def insertIfAbsent {α : Type} [DecidableEq α] (l : List α) (x : α) : List α :=
  if x ∈ l then l else l ++ [x]

/-- `true` iff the association list has an entry for `key`. -/
def containsKey (l : List ((String × String) × Val)) (key : String × String) : Bool :=
  l.any (fun t => decide (t.1 = key))

/-- Ansible `set_variable` on the flat variable store: overwrite the entry
for `key` when present, otherwise append it. -/
def setVarList (l : List ((String × String) × Val)) (key : String × String) (v : Val) :
    List ((String × String) × Val) :=
  if containsKey l key then l.map (fun t => if t.1 = key then (key, v) else t)
  else l ++ [(key, v)]

/-- `setVarList` in step form, for folding an operation list. -/
def setVarStep (l : List ((String × String) × Val)) (t : (String × String) × Val) :
    List ((String × String) × Val) :=
  setVarList l t.1 t.2

/-- The in-memory inventory graph built through `self.inventory`:
group names, host names, group→host membership edges, parent→child group
edges, and a name-keyed variable store. -/
@[ext]
structure Graph where
  groups : List String := []
  hosts : List String := []
  members : List (String × String) := []
  children : List (String × String) := []
  vars : List ((String × String) × Val) := []

/-- `self.inventory.add_group(name)` (line 257). -/
def Graph.addGroup (G : Graph) (name : String) : Graph :=
  { G with groups := insertIfAbsent G.groups name }

/-- `self.inventory.add_host(host_name)` (line 271). -/
def Graph.addHostNode (G : Graph) (h : String) : Graph :=
  { G with hosts := insertIfAbsent G.hosts h }

/-- `self.inventory.add_host(host_name, group_name)` (line 284): creates the
host when missing and records the membership edge. -/
def Graph.addHostToGroup (G : Graph) (g h : String) : Graph :=
  { G with hosts := insertIfAbsent G.hosts h,
           members := insertIfAbsent G.members (g, h) }

/-- `self.inventory.add_child(group_name, child_group_name)` (line 289). -/
def Graph.addChild (G : Graph) (parent child : String) : Graph :=
  { G with children := insertIfAbsent G.children (parent, child) }

/-- `self.inventory.set_variable(entity, var_name, var_value)`. -/
def Graph.setVariable (G : Graph) (e k : String) (v : Val) : Graph :=
  { G with vars := setVarList G.vars (e, k) v }

/-- Set a whole variable mapping in order (the `for var_name, var_value in
six.iteritems(...)` loops at lines 272-273 and 292-293). -/
def Graph.setVars (G : Graph) (e : String) (vs : List (String × Val)) : Graph :=
  vs.foldl (fun g kv => g.setVariable e kv.1 kv.2) G

def emptyGraph : Graph := {}

/-- State threaded through the first loop: the two allowed sets and the
inventory graph. -/
structure Phase1State where
  allowedHosts : List String
  allowedGroups : List String
  graph : Graph

/-- Lines 259-264: accumulate a group's host list into `allowed_hosts`,
looping with the hosts filter when one is set, `update`-ing wholesale
otherwise. -/
def phase1HostAdd (f : Filters) (acc : List String) (hosts : List String) : List String :=
  match f.hostsPattern with
  | none => acc ++ hosts
  | some p => hosts.foldl (fun a h => if p h then a ++ [h] else a) acc

/-- One iteration of the first loop (lines 252-264). -/
def phase1Step (f : Filters) (s : Phase1State) (e : String × GroupContent) : Phase1State :=
  if groupSkip f e.1 then s
  else if e.1 != "_meta" then
    let s' : Phase1State :=
      { s with allowedGroups := insertIfAbsent s.allowedGroups e.1,
               graph := s.graph.addGroup e.1 }
    if hostgroupPass f e.1 then
      { s' with allowedHosts := phase1HostAdd f s'.allowedHosts e.2.hosts }
    else s'
  else s

/-- The first loop (lines 249-264), starting from empty allowed sets. -/
def phase1 (f : Filters) (entries : List (String × GroupContent)) (G : Graph) : Phase1State :=
  entries.foldl (phase1Step f) ⟨[], [], G⟩

/-- One iteration of the second loop (lines 268-273). -/
def phase2Step (allowedH : List String) (G : Graph)
    (hv : String × List (String × Val)) : Graph :=
  if hv.1 ∈ allowedH then (G.addHostNode hv.1).setVars hv.1 hv.2 else G

/-- The second loop (lines 266-273) over `_meta.hostvars`. -/
def phase2 (allowedH : List String) (hostvars : List (String × List (String × Val)))
    (G : Graph) : Graph :=
  hostvars.foldl (phase2Step allowedH) G

/-- One iteration of the third loop (lines 276-293). -/
def phase3Step (allowedH allowedG : List String) (G : Graph)
    (e : String × GroupContent) : Graph :=
  if e.1 ∈ allowedG then
    let G1 :=
      if e.1 != "all" && e.1 != "_meta" then
        let Ga := e.2.hosts.foldl
          (fun g h => if h ∈ allowedH then g.addHostToGroup e.1 h else g) G
        e.2.children.foldl
          (fun g c => if c ∈ allowedG then g.addChild e.1 c else g) Ga
      else G
    if e.1 != "_meta" then G1.setVars e.1 e.2.vars else G1
  else G

/-- The third loop (lines 276-293). -/
def phase3 (allowedH allowedG : List String) (entries : List (String × GroupContent))
    (G : Graph) : Graph :=
  entries.foldl (phase3Step allowedH allowedG) G

/-- The server `config` document used by the metadata augmenter
(lines 296-303).  `license_info`, when present, is an object (the shape the
code's `.get(...)` chain requires); `version` / `ansible_version` are
arbitrary values. -/
structure ConfigDoc where
  license_info : Option (List (String × Val)) := none
  version : Option Val := none
  ansible_version : Option Val := none

/-- First value for `k` in a JSON object's field list. -/
def lookupField (l : List (String × Val)) (k : String) : Option Val :=
  (l.find? (fun kv => kv.1 == k)).map (fun kv => kv.2)

/-- Lines 299-302: the `server_data` dict, built in insertion order. -/
def serverData (cfg : ConfigDoc) : List (String × Val) :=
  [("license_type", (lookupField (cfg.license_info.getD []) "license_type").getD (Val.str "unknown")),
   ("version", cfg.version.getD (Val.str "unknown")),
   ("ansible_version", cfg.ansible_version.getD (Val.str "unknown"))]

/-- The whole graph construction of `parse` given the compiled filters and
the raw document (lines 248-303): the three loops, then the optional
metadata variable on `all`. -/
def buildGraph (d : RawDoc) (f : Filters) (includeMetadata : Bool) (cfg : ConfigDoc)
    (G0 : Graph) : Graph :=
  let s1 := phase1 f d.entries G0
  let g2 := phase2 s1.allowedHosts d.hostvars s1.graph
  let g3 := phase3 s1.allowedHosts s1.allowedGroups d.entries g2
  if includeMetadata then g3.setVariable "all" "controller_metadata" (Val.obj (serverData cfg))
  else g3

/-- The `allowed_hosts` set after the first loop. -/
def allowedHostsOf (f : Filters) (entries : List (String × GroupContent)) : List String :=
  (phase1 f entries emptyGraph).allowedHosts

/-- The `allowed_groups` set after the first loop. -/
def allowedGroupsOf (f : Filters) (entries : List (String × GroupContent)) : List String :=
  (phase1 f entries emptyGraph).allowedGroups

/-- Final value of variable `k` on entity `e` (the entry for a key is unique
when building from the empty graph, since `setVarList` appends only when the
key is absent). -/
def Graph.lookupVar (G : Graph) (e k : String) : Option Val :=
  (G.vars.find? (fun t => decide (t.1 = (e, k)))).map (fun t => t.2)

/-- The remote endpoints `parse` can hit, in the order the code reaches
them: the name-resolution query (line 224), the inventory script query
(line 248), the config query (line 298). -/
inductive Endpoint where
  | nameResolution | inventoryScript | config
deriving DecidableEq

/-- How a run of `parse` can fail in the modelled fragment:
`optionsError` is the `AnsibleOptionsError` for an unconvertible
`inventory_name` (lines 212-218); `lookupIndexError` is the `IndexError`
raised by `inventory_data['results'][0]` on an empty result list (line 225;
`IndexError` is a Python `LookupError`); `regexError` is the `re.error`
escaping from `re.compile` (lines 234, 239, 244). -/
inductive RunError where
  | optionsError | lookupIndexError | regexError
deriving DecidableEq

/-- A configured filter option before compilation: a pattern source is
either a valid regex (abstracted to its match predicate) or invalid. -/
inductive RegexSrc where
  | valid : (String → Bool) → RegexSrc
  | invalid

/-- The plugin options relevant to control flow. -/
structure Options where
  inventoryNameValid : Bool := true
  hostsFilter : Option RegexSrc := none
  hostgroupsFilter : Option RegexSrc := none
  groupsFilter : Option RegexSrc := none
  includeMetadata : Bool := false

/-- `re.compile` on an optional pattern source: unset stays unset, a valid
source yields its matcher, an invalid source raises `re.error`. -/
def compileFilter : Option RegexSrc → Except RunError (Option (String → Bool))
  | none => Except.ok none
  | some (RegexSrc.valid m) => Except.ok (some m)
  | some RegexSrc.invalid => Except.error RunError.regexError

/-- `InventoryModule.parse` (lines 192-306) as a sequential run: option
validation, the name-resolution request, `results[0]`, filter compilation
(lines 232-246, after the name request), the inventory-script request and
graph build, and the optional config request.  Returns the outcome together
with the list of endpoints queried, in order.  Transport and JSON-parse
failures of `make_request` are not modelled: each performed request yields
the supplied response. -/
def runParse (opts : Options) (nameResults : List Nat) (d : RawDoc) (cfg : ConfigDoc) :
    Except RunError Graph × List Endpoint :=
  if !opts.inventoryNameValid then (Except.error RunError.optionsError, [])
  else
    let trace1 := [Endpoint.nameResolution]
    if nameResults.isEmpty then (Except.error RunError.lookupIndexError, trace1)
    else
      match compileFilter opts.hostsFilter with
      | Except.error e => (Except.error e, trace1)
      | Except.ok hp =>
        match compileFilter opts.hostgroupsFilter with
        | Except.error e => (Except.error e, trace1)
        | Except.ok hgp =>
          match compileFilter opts.groupsFilter with
          | Except.error e => (Except.error e, trace1)
          | Except.ok gp =>
            let f : Filters := ⟨hp, hgp, gp⟩
            let trace2 := trace1 ++ [Endpoint.inventoryScript]
            let base := buildGraph d f false cfg emptyGraph
            if opts.includeMetadata then
              (Except.ok (base.setVariable "all" "controller_metadata" (Val.obj (serverData cfg))),
               trace2 ++ [Endpoint.config])
            else (Except.ok base, trace2)

/-! ### Normal forms

Each component of the graph is only ever modified by one kind of operation
(`insertIfAbsent` for the node and edge lists, `setVarList` for the
variable store), so the build factors, per component, into a fold of that
operation over a list of operands computed purely from the document and the
filters.  The definitions below give those operand lists; the lemmas that
follow prove the factorization. -/

/-- First value, scanning from the right: the value the last write for
`key` in the operation list leaves behind. -/
def lastVal (ops : List ((String × String) × Val)) (key : String × String) : Option Val :=
  ops.foldl (fun acc t => if t.1 = key then some t.2 else acc) none

/-- First value stored under `key` in an association list. -/
def findVal (l : List ((String × String) × Val)) (key : String × String) : Option Val :=
  (l.find? (fun t => decide (t.1 = key))).map (fun t => t.2)

/-- Guard of the body of the first loop (lines 253-255): the entry is
neither skipped by the groups filter nor the `_meta` key. -/
def admittedEntry (f : Filters) (e : String × GroupContent) : Bool :=
  !groupSkip f e.1 && e.1 != "_meta"

/-- Group names registered by the first loop, in order. -/
def groupAdds (f : Filters) (es : List (String × GroupContent)) : List String :=
  (es.filter (admittedEntry f)).map Prod.fst

/-- Host names accumulated into `allowed_hosts` by the first loop. -/
def hostAccum (f : Filters) (es : List (String × GroupContent)) : List String :=
  es.flatMap (fun e =>
    if admittedEntry f e && hostgroupPass f e.1 then e.2.hosts.filter (hostPass f) else [])

/-- Hosts created by the second loop: hostvars keys that made `allowed_hosts`. -/
def p2HostAdds (aH : List String) (hostvars : List (String × List (String × Val))) :
    List String :=
  (hostvars.filter (fun hv => decide (hv.1 ∈ aH))).map Prod.fst

/-- Host-variable writes of the second loop, in order. -/
def p2VarOps (aH : List String) (hostvars : List (String × List (String × Val))) :
    List ((String × String) × Val) :=
  (hostvars.filter (fun hv => decide (hv.1 ∈ aH))).flatMap
    (fun hv => hv.2.map (fun kv => ((hv.1, kv.1), kv.2)))

/-- Hosts (re-)created by the membership pass of the third loop. -/
def p3HostAdds (aH aG : List String) (es : List (String × GroupContent)) : List String :=
  es.flatMap (fun e =>
    if e.1 ∈ aG then
      if e.1 != "all" && e.1 != "_meta" then e.2.hosts.filter (fun h => decide (h ∈ aH))
      else []
    else [])

/-- Group→host membership edges added by the third loop. -/
def p3MemberAdds (aH aG : List String) (es : List (String × GroupContent)) :
    List (String × String) :=
  es.flatMap (fun e =>
    if e.1 ∈ aG then
      if e.1 != "all" && e.1 != "_meta" then
        (e.2.hosts.filter (fun h => decide (h ∈ aH))).map (fun h => (e.1, h))
      else []
    else [])

/-- Parent→child edges added by the third loop. -/
def p3ChildAdds (aG : List String) (es : List (String × GroupContent)) :
    List (String × String) :=
  es.flatMap (fun e =>
    if e.1 ∈ aG then
      if e.1 != "all" && e.1 != "_meta" then
        (e.2.children.filter (fun c => decide (c ∈ aG))).map (fun c => (e.1, c))
      else []
    else [])

/-- Group-variable writes of the third loop, in order. -/
def p3VarOps (aG : List String) (es : List (String × GroupContent)) :
    List ((String × String) × Val) :=
  es.flatMap (fun e =>
    if e.1 ∈ aG then
      if e.1 != "_meta" then e.2.vars.map (fun kv => ((e.1, kv.1), kv.2)) else []
    else [])

/-- All host-node creations of the build, in order. -/
def hostNodeAdds (d : RawDoc) (f : Filters) : List String :=
  p2HostAdds (allowedHostsOf f d.entries) d.hostvars ++
    p3HostAdds (allowedHostsOf f d.entries) (allowedGroupsOf f d.entries) d.entries

/-- All variable writes of the build, in order. -/
def varOpsOf (d : RawDoc) (f : Filters) (m : Bool) (cfg : ConfigDoc) :
    List ((String × String) × Val) :=
  p2VarOps (allowedHostsOf f d.entries) d.hostvars ++
    p3VarOps (allowedGroupsOf f d.entries) d.entries ++
    (if m then [(("all", "controller_metadata"), Val.obj (serverData cfg))] else [])

/-! ### Lemmas: primitive operations -/

theorem mem_insertIfAbsent {α : Type} [DecidableEq α] {l : List α} {x y : α} :
    x ∈ insertIfAbsent l y ↔ x ∈ l ∨ x = y := by
  unfold insertIfAbsent
  split
  · rename_i h
    constructor
    · exact Or.inl
    · rintro (hx | rfl)
      · exact hx
      · exact h
  · simp [List.mem_append]

theorem mem_foldl_insertIfAbsent {α : Type} [DecidableEq α] (xs l : List α) (x : α) :
    x ∈ xs.foldl insertIfAbsent l ↔ x ∈ l ∨ x ∈ xs := by
  induction xs generalizing l with
  | nil => simp
  | cons a t ih => simp [List.foldl_cons, ih, mem_insertIfAbsent, or_assoc]

theorem foldl_insertIfAbsent_of_subset {α : Type} [DecidableEq α] {xs l : List α}
    (h : ∀ x ∈ xs, x ∈ l) : xs.foldl insertIfAbsent l = l := by
  induction xs with
  | nil => rfl
  | cons a t ih =>
    have ha : a ∈ l := h a (by simp)
    rw [List.foldl_cons, insertIfAbsent, if_pos ha]
    exact ih (fun x hx => h x (by simp [hx]))

theorem foldl_insertIfAbsent_idem {α : Type} [DecidableEq α] (xs l : List α) :
    xs.foldl insertIfAbsent (xs.foldl insertIfAbsent l) = xs.foldl insertIfAbsent l :=
  foldl_insertIfAbsent_of_subset
    (fun x hx => (mem_foldl_insertIfAbsent xs l x).mpr (Or.inr hx))

/-! ### Lemmas: graph-operation projections -/

theorem setVars_groups (vs : List (String × Val)) (G : Graph) (e : String) :
    (G.setVars e vs).groups = G.groups := by
  induction vs generalizing G with
  | nil => rfl
  | cons kv t ih => exact (ih (G.setVariable e kv.1 kv.2)).trans rfl

theorem setVars_hosts (vs : List (String × Val)) (G : Graph) (e : String) :
    (G.setVars e vs).hosts = G.hosts := by
  induction vs generalizing G with
  | nil => rfl
  | cons kv t ih => exact (ih (G.setVariable e kv.1 kv.2)).trans rfl

theorem setVars_members (vs : List (String × Val)) (G : Graph) (e : String) :
    (G.setVars e vs).members = G.members := by
  induction vs generalizing G with
  | nil => rfl
  | cons kv t ih => exact (ih (G.setVariable e kv.1 kv.2)).trans rfl

theorem setVars_children (vs : List (String × Val)) (G : Graph) (e : String) :
    (G.setVars e vs).children = G.children := by
  induction vs generalizing G with
  | nil => rfl
  | cons kv t ih => exact (ih (G.setVariable e kv.1 kv.2)).trans rfl

theorem setVars_vars (vs : List (String × Val)) (G : Graph) (e : String) :
    (G.setVars e vs).vars =
      (vs.map (fun kv => ((e, kv.1), kv.2))).foldl setVarStep G.vars := by
  induction vs generalizing G with
  | nil => rfl
  | cons kv t ih => exact (ih (G.setVariable e kv.1 kv.2)).trans rfl

/-! ### Lemmas: phase 1 normal form -/

theorem foldl_filter_push (p : String → Bool) (hs acc : List String) :
    hs.foldl (fun a h => if p h = true then a ++ [h] else a) acc = acc ++ hs.filter p := by
  induction hs generalizing acc with
  | nil => simp
  | cons a t ih =>
    by_cases hpa : p a = true
    · rw [List.foldl_cons, if_pos hpa, ih, List.filter_cons_of_pos hpa]
      simp
    · rw [List.foldl_cons, if_neg hpa, ih,
        List.filter_cons_of_neg (by simpa using hpa)]

theorem phase1HostAdd_eq (f : Filters) (acc hs : List String) :
    phase1HostAdd f acc hs = acc ++ hs.filter (hostPass f) := by
  unfold phase1HostAdd
  cases hp : f.hostsPattern with
  | none =>
    have hpass : hostPass f = fun _ => true := by
      funext h; simp [hostPass, hp]
    simp [hpass]
  | some p =>
    have hpass : hostPass f = p := by
      funext h; simp [hostPass, hp]
    rw [hpass]
    exact foldl_filter_push p hs acc

/-- The first loop's body, restated with a single admission guard. -/
theorem phase1Step_eq (f : Filters) (s : Phase1State) (e : String × GroupContent) :
    phase1Step f s e =
      if admittedEntry f e then
        { allowedHosts :=
            if hostgroupPass f e.1 then s.allowedHosts ++ e.2.hosts.filter (hostPass f)
            else s.allowedHosts,
          allowedGroups := insertIfAbsent s.allowedGroups e.1,
          graph := s.graph.addGroup e.1 }
      else s := by
  unfold phase1Step admittedEntry
  by_cases h1 : groupSkip f e.1 = true <;>
    by_cases h2 : (e.1 != "_meta") = true <;>
      by_cases h3 : hostgroupPass f e.1 = true <;>
        simp [h1, h2, h3, phase1HostAdd_eq]

theorem foldl_phase1_allowedGroups (f : Filters) (es : List (String × GroupContent)) :
    ∀ s : Phase1State, (es.foldl (phase1Step f) s).allowedGroups =
      (groupAdds f es).foldl insertIfAbsent s.allowedGroups := by
  induction es with
  | nil => intro s; rfl
  | cons e t ih =>
    intro s
    rw [List.foldl_cons, phase1Step_eq]
    by_cases ha : admittedEntry f e = true
    · rw [if_pos ha, ih]
      simp [groupAdds, List.filter_cons, ha]
    · rw [if_neg ha, ih]
      simp [groupAdds, List.filter_cons, ha]

theorem foldl_phase1_allowedHosts (f : Filters) (es : List (String × GroupContent)) :
    ∀ s : Phase1State, (es.foldl (phase1Step f) s).allowedHosts =
      s.allowedHosts ++ hostAccum f es := by
  induction es with
  | nil => intro s; simp [hostAccum]
  | cons e t ih =>
    intro s
    rw [List.foldl_cons, phase1Step_eq]
    by_cases ha : admittedEntry f e = true
    · rw [if_pos ha]
      by_cases hg : hostgroupPass f e.1 = true
      · rw [ih]
        simp [hostAccum, List.flatMap_cons, ha, hg]
      · rw [ih]
        simp [hostAccum, List.flatMap_cons, ha, hg]
    · rw [if_neg ha, ih]
      simp [hostAccum, List.flatMap_cons, ha]

theorem foldl_phase1_graph_groups (f : Filters) (es : List (String × GroupContent)) :
    ∀ s : Phase1State, (es.foldl (phase1Step f) s).graph.groups =
      (groupAdds f es).foldl insertIfAbsent s.graph.groups := by
  induction es with
  | nil => intro s; rfl
  | cons e t ih =>
    intro s
    rw [List.foldl_cons, phase1Step_eq]
    by_cases ha : admittedEntry f e = true
    · rw [if_pos ha, ih]
      simp [groupAdds, List.filter_cons, ha, Graph.addGroup]
    · rw [if_neg ha, ih]
      simp [groupAdds, List.filter_cons, ha]

theorem foldl_phase1_graph_hosts (f : Filters) (es : List (String × GroupContent)) :
    ∀ s : Phase1State, (es.foldl (phase1Step f) s).graph.hosts = s.graph.hosts := by
  induction es with
  | nil => intro s; rfl
  | cons e t ih =>
    intro s
    rw [List.foldl_cons, phase1Step_eq]
    by_cases ha : admittedEntry f e = true
    · rw [if_pos ha, ih]; rfl
    · rw [if_neg ha, ih]

theorem foldl_phase1_graph_members (f : Filters) (es : List (String × GroupContent)) :
    ∀ s : Phase1State, (es.foldl (phase1Step f) s).graph.members = s.graph.members := by
  induction es with
  | nil => intro s; rfl
  | cons e t ih =>
    intro s
    rw [List.foldl_cons, phase1Step_eq]
    by_cases ha : admittedEntry f e = true
    · rw [if_pos ha, ih]; rfl
    · rw [if_neg ha, ih]

theorem foldl_phase1_graph_children (f : Filters) (es : List (String × GroupContent)) :
    ∀ s : Phase1State, (es.foldl (phase1Step f) s).graph.children = s.graph.children := by
  induction es with
  | nil => intro s; rfl
  | cons e t ih =>
    intro s
    rw [List.foldl_cons, phase1Step_eq]
    by_cases ha : admittedEntry f e = true
    · rw [if_pos ha, ih]; rfl
    · rw [if_neg ha, ih]

theorem foldl_phase1_graph_vars (f : Filters) (es : List (String × GroupContent)) :
    ∀ s : Phase1State, (es.foldl (phase1Step f) s).graph.vars = s.graph.vars := by
  induction es with
  | nil => intro s; rfl
  | cons e t ih =>
    intro s
    rw [List.foldl_cons, phase1Step_eq]
    by_cases ha : admittedEntry f e = true
    · rw [if_pos ha, ih]; rfl
    · rw [if_neg ha, ih]

theorem phase1_allowedHosts (f : Filters) (es : List (String × GroupContent)) (G : Graph) :
    (phase1 f es G).allowedHosts = hostAccum f es := by
  rw [phase1, foldl_phase1_allowedHosts]
  rfl

theorem phase1_allowedGroups (f : Filters) (es : List (String × GroupContent)) (G : Graph) :
    (phase1 f es G).allowedGroups = (groupAdds f es).foldl insertIfAbsent [] := by
  rw [phase1, foldl_phase1_allowedGroups]

theorem allowedHostsOf_eq (f : Filters) (es : List (String × GroupContent)) :
    allowedHostsOf f es = hostAccum f es :=
  phase1_allowedHosts f es emptyGraph

theorem allowedGroupsOf_eq (f : Filters) (es : List (String × GroupContent)) :
    allowedGroupsOf f es = (groupAdds f es).foldl insertIfAbsent [] :=
  phase1_allowedGroups f es emptyGraph

/-! ### Lemmas: phase 2 normal form -/

theorem phase2_groups (aH : List String) (hostvars : List (String × List (String × Val))) :
    ∀ G : Graph, (phase2 aH hostvars G).groups = G.groups := by
  induction hostvars with
  | nil => intro G; rfl
  | cons hv t ih =>
    intro G
    rw [phase2, List.foldl_cons]
    by_cases hmem : hv.1 ∈ aH
    · rw [show phase2Step aH G hv = (G.addHostNode hv.1).setVars hv.1 hv.2 from by
        simp [phase2Step, hmem]]
      rw [show List.foldl (phase2Step aH) ((G.addHostNode hv.1).setVars hv.1 hv.2) t =
        phase2 aH t ((G.addHostNode hv.1).setVars hv.1 hv.2) from rfl]
      rw [ih, setVars_groups]
      rfl
    · rw [show phase2Step aH G hv = G from by simp [phase2Step, hmem]]
      exact ih G

theorem phase2_members (aH : List String) (hostvars : List (String × List (String × Val))) :
    ∀ G : Graph, (phase2 aH hostvars G).members = G.members := by
  induction hostvars with
  | nil => intro G; rfl
  | cons hv t ih =>
    intro G
    rw [phase2, List.foldl_cons]
    by_cases hmem : hv.1 ∈ aH
    · rw [show phase2Step aH G hv = (G.addHostNode hv.1).setVars hv.1 hv.2 from by
        simp [phase2Step, hmem]]
      rw [show List.foldl (phase2Step aH) ((G.addHostNode hv.1).setVars hv.1 hv.2) t =
        phase2 aH t ((G.addHostNode hv.1).setVars hv.1 hv.2) from rfl]
      rw [ih, setVars_members]
      rfl
    · rw [show phase2Step aH G hv = G from by simp [phase2Step, hmem]]
      exact ih G

theorem phase2_children (aH : List String) (hostvars : List (String × List (String × Val))) :
    ∀ G : Graph, (phase2 aH hostvars G).children = G.children := by
  induction hostvars with
  | nil => intro G; rfl
  | cons hv t ih =>
    intro G
    rw [phase2, List.foldl_cons]
    by_cases hmem : hv.1 ∈ aH
    · rw [show phase2Step aH G hv = (G.addHostNode hv.1).setVars hv.1 hv.2 from by
        simp [phase2Step, hmem]]
      rw [show List.foldl (phase2Step aH) ((G.addHostNode hv.1).setVars hv.1 hv.2) t =
        phase2 aH t ((G.addHostNode hv.1).setVars hv.1 hv.2) from rfl]
      rw [ih, setVars_children]
      rfl
    · rw [show phase2Step aH G hv = G from by simp [phase2Step, hmem]]
      exact ih G

theorem phase2_hosts (aH : List String) (hostvars : List (String × List (String × Val))) :
    ∀ G : Graph, (phase2 aH hostvars G).hosts =
      (p2HostAdds aH hostvars).foldl insertIfAbsent G.hosts := by
  induction hostvars with
  | nil => intro G; rfl
  | cons hv t ih =>
    intro G
    rw [phase2, List.foldl_cons]
    by_cases hmem : hv.1 ∈ aH
    · rw [show phase2Step aH G hv = (G.addHostNode hv.1).setVars hv.1 hv.2 from by
        simp [phase2Step, hmem]]
      rw [show List.foldl (phase2Step aH) ((G.addHostNode hv.1).setVars hv.1 hv.2) t =
        phase2 aH t ((G.addHostNode hv.1).setVars hv.1 hv.2) from rfl]
      rw [ih, setVars_hosts]
      simp [p2HostAdds, List.filter_cons, hmem, Graph.addHostNode]
    · rw [show phase2Step aH G hv = G from by simp [phase2Step, hmem]]
      rw [show List.foldl (phase2Step aH) G t = phase2 aH t G from rfl, ih]
      simp [p2HostAdds, List.filter_cons, hmem]

theorem phase2_vars (aH : List String) (hostvars : List (String × List (String × Val))) :
    ∀ G : Graph, (phase2 aH hostvars G).vars =
      (p2VarOps aH hostvars).foldl setVarStep G.vars := by
  induction hostvars with
  | nil => intro G; rfl
  | cons hv t ih =>
    intro G
    rw [phase2, List.foldl_cons]
    by_cases hmem : hv.1 ∈ aH
    · rw [show phase2Step aH G hv = (G.addHostNode hv.1).setVars hv.1 hv.2 from by
        simp [phase2Step, hmem]]
      rw [show List.foldl (phase2Step aH) ((G.addHostNode hv.1).setVars hv.1 hv.2) t =
        phase2 aH t ((G.addHostNode hv.1).setVars hv.1 hv.2) from rfl]
      rw [ih, setVars_vars]
      rw [show ((G.addHostNode hv.1).vars) = G.vars from rfl]
      rw [show p2VarOps aH (hv :: t) =
        (hv.2.map (fun kv => ((hv.1, kv.1), kv.2))) ++ p2VarOps aH t from by
          simp [p2VarOps, List.filter_cons, hmem]]
      rw [List.foldl_append]
    · rw [show phase2Step aH G hv = G from by simp [phase2Step, hmem]]
      rw [show List.foldl (phase2Step aH) G t = phase2 aH t G from rfl, ih]
      simp [p2VarOps, List.filter_cons, hmem]

/-! ### Lemmas: phase 3 normal form -/

theorem memberFold_groups (aH : List String) (gname : String) (hs : List String) :
    ∀ G : Graph,
      (hs.foldl (fun g h => if h ∈ aH then g.addHostToGroup gname h else g) G).groups =
        G.groups := by
  induction hs with
  | nil => intro G; rfl
  | cons a t ih =>
    intro G
    rw [List.foldl_cons]
    by_cases hmem : a ∈ aH
    · rw [if_pos hmem, ih]; rfl
    · rw [if_neg hmem, ih]

theorem memberFold_children (aH : List String) (gname : String) (hs : List String) :
    ∀ G : Graph,
      (hs.foldl (fun g h => if h ∈ aH then g.addHostToGroup gname h else g) G).children =
        G.children := by
  induction hs with
  | nil => intro G; rfl
  | cons a t ih =>
    intro G
    rw [List.foldl_cons]
    by_cases hmem : a ∈ aH
    · rw [if_pos hmem, ih]; rfl
    · rw [if_neg hmem, ih]

theorem memberFold_vars (aH : List String) (gname : String) (hs : List String) :
    ∀ G : Graph,
      (hs.foldl (fun g h => if h ∈ aH then g.addHostToGroup gname h else g) G).vars =
        G.vars := by
  induction hs with
  | nil => intro G; rfl
  | cons a t ih =>
    intro G
    rw [List.foldl_cons]
    by_cases hmem : a ∈ aH
    · rw [if_pos hmem, ih]; rfl
    · rw [if_neg hmem, ih]

theorem memberFold_hosts (aH : List String) (gname : String) (hs : List String) :
    ∀ G : Graph,
      (hs.foldl (fun g h => if h ∈ aH then g.addHostToGroup gname h else g) G).hosts =
        (hs.filter (fun h => decide (h ∈ aH))).foldl insertIfAbsent G.hosts := by
  induction hs with
  | nil => intro G; rfl
  | cons a t ih =>
    intro G
    rw [List.foldl_cons]
    by_cases hmem : a ∈ aH
    · rw [if_pos hmem, ih]
      simp [List.filter_cons, hmem, Graph.addHostToGroup]
    · rw [if_neg hmem, ih]
      simp [List.filter_cons, hmem]

theorem memberFold_members (aH : List String) (gname : String) (hs : List String) :
    ∀ G : Graph,
      (hs.foldl (fun g h => if h ∈ aH then g.addHostToGroup gname h else g) G).members =
        ((hs.filter (fun h => decide (h ∈ aH))).map (fun h => (gname, h))).foldl
          insertIfAbsent G.members := by
  induction hs with
  | nil => intro G; rfl
  | cons a t ih =>
    intro G
    rw [List.foldl_cons]
    by_cases hmem : a ∈ aH
    · rw [if_pos hmem, ih]
      simp [List.filter_cons, hmem, Graph.addHostToGroup]
    · rw [if_neg hmem, ih]
      simp [List.filter_cons, hmem]

theorem childFold_groups (aG : List String) (gname : String) (cs : List String) :
    ∀ G : Graph,
      (cs.foldl (fun g c => if c ∈ aG then g.addChild gname c else g) G).groups =
        G.groups := by
  induction cs with
  | nil => intro G; rfl
  | cons a t ih =>
    intro G
    rw [List.foldl_cons]
    by_cases hmem : a ∈ aG
    · rw [if_pos hmem, ih]; rfl
    · rw [if_neg hmem, ih]

theorem childFold_hosts (aG : List String) (gname : String) (cs : List String) :
    ∀ G : Graph,
      (cs.foldl (fun g c => if c ∈ aG then g.addChild gname c else g) G).hosts =
        G.hosts := by
  induction cs with
  | nil => intro G; rfl
  | cons a t ih =>
    intro G
    rw [List.foldl_cons]
    by_cases hmem : a ∈ aG
    · rw [if_pos hmem, ih]; rfl
    · rw [if_neg hmem, ih]

theorem childFold_members (aG : List String) (gname : String) (cs : List String) :
    ∀ G : Graph,
      (cs.foldl (fun g c => if c ∈ aG then g.addChild gname c else g) G).members =
        G.members := by
  induction cs with
  | nil => intro G; rfl
  | cons a t ih =>
    intro G
    rw [List.foldl_cons]
    by_cases hmem : a ∈ aG
    · rw [if_pos hmem, ih]; rfl
    · rw [if_neg hmem, ih]

theorem childFold_vars (aG : List String) (gname : String) (cs : List String) :
    ∀ G : Graph,
      (cs.foldl (fun g c => if c ∈ aG then g.addChild gname c else g) G).vars =
        G.vars := by
  induction cs with
  | nil => intro G; rfl
  | cons a t ih =>
    intro G
    rw [List.foldl_cons]
    by_cases hmem : a ∈ aG
    · rw [if_pos hmem, ih]; rfl
    · rw [if_neg hmem, ih]

theorem childFold_children (aG : List String) (gname : String) (cs : List String) :
    ∀ G : Graph,
      (cs.foldl (fun g c => if c ∈ aG then g.addChild gname c else g) G).children =
        ((cs.filter (fun c => decide (c ∈ aG))).map (fun c => (gname, c))).foldl
          insertIfAbsent G.children := by
  induction cs with
  | nil => intro G; rfl
  | cons a t ih =>
    intro G
    rw [List.foldl_cons]
    by_cases hmem : a ∈ aG
    · rw [if_pos hmem, ih]
      simp [List.filter_cons, hmem, Graph.addChild]
    · rw [if_neg hmem, ih]
      simp [List.filter_cons, hmem]

theorem phase3Step_groups (aH aG : List String) (G : Graph) (e : String × GroupContent) :
    (phase3Step aH aG G e).groups = G.groups := by
  unfold phase3Step
  by_cases hmem : e.1 ∈ aG
  · rw [if_pos hmem]
    by_cases hb : (e.1 != "all" && e.1 != "_meta") = true <;>
      by_cases hm : (e.1 != "_meta") = true <;>
        simp [hb, hm, setVars_groups, memberFold_groups, childFold_groups, apply_ite, ite_self]
  · rw [if_neg hmem]

theorem phase3Step_hosts (aH aG : List String) (G : Graph) (e : String × GroupContent) :
    (phase3Step aH aG G e).hosts =
      (if e.1 ∈ aG then
        if e.1 != "all" && e.1 != "_meta" then e.2.hosts.filter (fun h => decide (h ∈ aH))
        else []
      else []).foldl insertIfAbsent G.hosts := by
  unfold phase3Step
  by_cases hmem : e.1 ∈ aG
  · rw [if_pos hmem, if_pos hmem]
    by_cases hb : (e.1 != "all" && e.1 != "_meta") = true <;>
      by_cases hm : (e.1 != "_meta") = true <;>
        (simp [hb, hm, setVars_hosts, memberFold_hosts, childFold_hosts, apply_ite, ite_self]; try (split <;> simp_all))
  · rw [if_neg hmem, if_neg hmem]
    rfl

theorem phase3Step_members (aH aG : List String) (G : Graph) (e : String × GroupContent) :
    (phase3Step aH aG G e).members =
      (if e.1 ∈ aG then
        if e.1 != "all" && e.1 != "_meta" then
          (e.2.hosts.filter (fun h => decide (h ∈ aH))).map (fun h => (e.1, h))
        else []
      else []).foldl insertIfAbsent G.members := by
  unfold phase3Step
  by_cases hmem : e.1 ∈ aG
  · rw [if_pos hmem, if_pos hmem]
    by_cases hb : (e.1 != "all" && e.1 != "_meta") = true <;>
      by_cases hm : (e.1 != "_meta") = true <;>
        (simp [hb, hm, setVars_members, memberFold_members, childFold_members, apply_ite, ite_self]; try (split <;> simp_all))
  · rw [if_neg hmem, if_neg hmem]
    rfl

theorem phase3Step_children (aH aG : List String) (G : Graph) (e : String × GroupContent) :
    (phase3Step aH aG G e).children =
      (if e.1 ∈ aG then
        if e.1 != "all" && e.1 != "_meta" then
          (e.2.children.filter (fun c => decide (c ∈ aG))).map (fun c => (e.1, c))
        else []
      else []).foldl insertIfAbsent G.children := by
  unfold phase3Step
  by_cases hmem : e.1 ∈ aG
  · rw [if_pos hmem, if_pos hmem]
    by_cases hb : (e.1 != "all" && e.1 != "_meta") = true <;>
      by_cases hm : (e.1 != "_meta") = true <;>
        (simp [hb, hm, setVars_children, memberFold_children, childFold_children, apply_ite, ite_self]; try (split <;> simp_all))
  · rw [if_neg hmem, if_neg hmem]
    rfl

theorem phase3Step_vars (aH aG : List String) (G : Graph) (e : String × GroupContent) :
    (phase3Step aH aG G e).vars =
      (if e.1 ∈ aG then
        if e.1 != "_meta" then e.2.vars.map (fun kv => ((e.1, kv.1), kv.2)) else []
      else []).foldl setVarStep G.vars := by
  unfold phase3Step
  by_cases hmem : e.1 ∈ aG
  · rw [if_pos hmem, if_pos hmem]
    by_cases hb : (e.1 != "all" && e.1 != "_meta") = true <;>
      by_cases hm : (e.1 != "_meta") = true <;>
        simp [hb, hm, setVars_vars, memberFold_vars, childFold_vars, apply_ite, ite_self]
  · rw [if_neg hmem, if_neg hmem]
    rfl

theorem phase3_groups (aH aG : List String) (es : List (String × GroupContent)) :
    ∀ G : Graph, (phase3 aH aG es G).groups = G.groups := by
  induction es with
  | nil => intro G; rfl
  | cons e t ih =>
    intro G
    rw [phase3, List.foldl_cons,
      show List.foldl (phase3Step aH aG) (phase3Step aH aG G e) t =
        phase3 aH aG t (phase3Step aH aG G e) from rfl,
      ih, phase3Step_groups]

theorem phase3_hosts (aH aG : List String) (es : List (String × GroupContent)) :
    ∀ G : Graph, (phase3 aH aG es G).hosts =
      (p3HostAdds aH aG es).foldl insertIfAbsent G.hosts := by
  induction es with
  | nil => intro G; rfl
  | cons e t ih =>
    intro G
    rw [phase3, List.foldl_cons,
      show List.foldl (phase3Step aH aG) (phase3Step aH aG G e) t =
        phase3 aH aG t (phase3Step aH aG G e) from rfl,
      ih, phase3Step_hosts]
    rw [show p3HostAdds aH aG (e :: t) =
      (if e.1 ∈ aG then
        if e.1 != "all" && e.1 != "_meta" then e.2.hosts.filter (fun h => decide (h ∈ aH))
        else []
      else []) ++ p3HostAdds aH aG t from by simp [p3HostAdds]]
    rw [List.foldl_append]

theorem phase3_members (aH aG : List String) (es : List (String × GroupContent)) :
    ∀ G : Graph, (phase3 aH aG es G).members =
      (p3MemberAdds aH aG es).foldl insertIfAbsent G.members := by
  induction es with
  | nil => intro G; rfl
  | cons e t ih =>
    intro G
    rw [phase3, List.foldl_cons,
      show List.foldl (phase3Step aH aG) (phase3Step aH aG G e) t =
        phase3 aH aG t (phase3Step aH aG G e) from rfl,
      ih, phase3Step_members]
    rw [show p3MemberAdds aH aG (e :: t) =
      (if e.1 ∈ aG then
        if e.1 != "all" && e.1 != "_meta" then
          (e.2.hosts.filter (fun h => decide (h ∈ aH))).map (fun h => (e.1, h))
        else []
      else []) ++ p3MemberAdds aH aG t from by simp [p3MemberAdds]]
    rw [List.foldl_append]

theorem phase3_children (aH aG : List String) (es : List (String × GroupContent)) :
    ∀ G : Graph, (phase3 aH aG es G).children =
      (p3ChildAdds aG es).foldl insertIfAbsent G.children := by
  induction es with
  | nil => intro G; rfl
  | cons e t ih =>
    intro G
    rw [phase3, List.foldl_cons,
      show List.foldl (phase3Step aH aG) (phase3Step aH aG G e) t =
        phase3 aH aG t (phase3Step aH aG G e) from rfl,
      ih, phase3Step_children]
    rw [show p3ChildAdds aG (e :: t) =
      (if e.1 ∈ aG then
        if e.1 != "all" && e.1 != "_meta" then
          (e.2.children.filter (fun c => decide (c ∈ aG))).map (fun c => (e.1, c))
        else []
      else []) ++ p3ChildAdds aG t from by simp [p3ChildAdds]]
    rw [List.foldl_append]

theorem phase3_vars (aH aG : List String) (es : List (String × GroupContent)) :
    ∀ G : Graph, (phase3 aH aG es G).vars =
      (p3VarOps aG es).foldl setVarStep G.vars := by
  induction es with
  | nil => intro G; rfl
  | cons e t ih =>
    intro G
    rw [phase3, List.foldl_cons,
      show List.foldl (phase3Step aH aG) (phase3Step aH aG G e) t =
        phase3 aH aG t (phase3Step aH aG G e) from rfl,
      ih, phase3Step_vars]
    rw [show p3VarOps aG (e :: t) =
      (if e.1 ∈ aG then
        if e.1 != "_meta" then e.2.vars.map (fun kv => ((e.1, kv.1), kv.2)) else []
      else []) ++ p3VarOps aG t from by simp [p3VarOps]]
    rw [List.foldl_append]

/-! ### Lemmas: the whole build, componentwise -/

theorem phase1_graph_groups (f : Filters) (es : List (String × GroupContent)) (G : Graph) :
    (phase1 f es G).graph.groups = (groupAdds f es).foldl insertIfAbsent G.groups := by
  rw [phase1, foldl_phase1_graph_groups]

theorem phase1_graph_hosts (f : Filters) (es : List (String × GroupContent)) (G : Graph) :
    (phase1 f es G).graph.hosts = G.hosts := by
  rw [phase1, foldl_phase1_graph_hosts]

theorem phase1_graph_members (f : Filters) (es : List (String × GroupContent)) (G : Graph) :
    (phase1 f es G).graph.members = G.members := by
  rw [phase1, foldl_phase1_graph_members]

theorem phase1_graph_children (f : Filters) (es : List (String × GroupContent)) (G : Graph) :
    (phase1 f es G).graph.children = G.children := by
  rw [phase1, foldl_phase1_graph_children]

theorem phase1_graph_vars (f : Filters) (es : List (String × GroupContent)) (G : Graph) :
    (phase1 f es G).graph.vars = G.vars := by
  rw [phase1, foldl_phase1_graph_vars]

theorem phase1_allowedHosts_eq (f : Filters) (es : List (String × GroupContent)) (G : Graph) :
    (phase1 f es G).allowedHosts = allowedHostsOf f es := by
  rw [phase1_allowedHosts, allowedHostsOf_eq]

theorem phase1_allowedGroups_eq (f : Filters) (es : List (String × GroupContent)) (G : Graph) :
    (phase1 f es G).allowedGroups = allowedGroupsOf f es := by
  rw [phase1_allowedGroups, allowedGroupsOf_eq]

theorem buildGraph_groups (d : RawDoc) (f : Filters) (m : Bool) (cfg : ConfigDoc)
    (G0 : Graph) : (buildGraph d f m cfg G0).groups =
      (groupAdds f d.entries).foldl insertIfAbsent G0.groups := by
  simp only [buildGraph]
  cases m with
  | false =>
    rw [if_neg Bool.false_ne_true, phase3_groups, phase2_groups, phase1_graph_groups]
  | true =>
    rw [if_pos rfl,
      show ∀ G : Graph,
        (G.setVariable "all" "controller_metadata" (Val.obj (serverData cfg))).groups =
          G.groups from fun _ => rfl,
      phase3_groups, phase2_groups, phase1_graph_groups]

theorem buildGraph_hosts (d : RawDoc) (f : Filters) (m : Bool) (cfg : ConfigDoc)
    (G0 : Graph) : (buildGraph d f m cfg G0).hosts =
      (hostNodeAdds d f).foldl insertIfAbsent G0.hosts := by
  have core : (phase3 (phase1 f d.entries G0).allowedHosts
      (phase1 f d.entries G0).allowedGroups d.entries
      (phase2 (phase1 f d.entries G0).allowedHosts d.hostvars
        (phase1 f d.entries G0).graph)).hosts =
      (hostNodeAdds d f).foldl insertIfAbsent G0.hosts := by
    rw [phase3_hosts, phase2_hosts, phase1_graph_hosts, phase1_allowedHosts_eq,
      phase1_allowedGroups_eq, hostNodeAdds, List.foldl_append]
  simp only [buildGraph]
  cases m with
  | false => rw [if_neg Bool.false_ne_true]; exact core
  | true =>
    rw [if_pos rfl,
      show ∀ G : Graph,
        (G.setVariable "all" "controller_metadata" (Val.obj (serverData cfg))).hosts =
          G.hosts from fun _ => rfl]
    exact core

theorem buildGraph_members (d : RawDoc) (f : Filters) (m : Bool) (cfg : ConfigDoc)
    (G0 : Graph) : (buildGraph d f m cfg G0).members =
      (p3MemberAdds (allowedHostsOf f d.entries) (allowedGroupsOf f d.entries)
        d.entries).foldl insertIfAbsent G0.members := by
  have core : (phase3 (phase1 f d.entries G0).allowedHosts
      (phase1 f d.entries G0).allowedGroups d.entries
      (phase2 (phase1 f d.entries G0).allowedHosts d.hostvars
        (phase1 f d.entries G0).graph)).members =
      (p3MemberAdds (allowedHostsOf f d.entries) (allowedGroupsOf f d.entries)
        d.entries).foldl insertIfAbsent G0.members := by
    rw [phase3_members, phase2_members, phase1_graph_members, phase1_allowedHosts_eq,
      phase1_allowedGroups_eq]
  simp only [buildGraph]
  cases m with
  | false => rw [if_neg Bool.false_ne_true]; exact core
  | true =>
    rw [if_pos rfl,
      show ∀ G : Graph,
        (G.setVariable "all" "controller_metadata" (Val.obj (serverData cfg))).members =
          G.members from fun _ => rfl]
    exact core

theorem buildGraph_children (d : RawDoc) (f : Filters) (m : Bool) (cfg : ConfigDoc)
    (G0 : Graph) : (buildGraph d f m cfg G0).children =
      (p3ChildAdds (allowedGroupsOf f d.entries) d.entries).foldl
        insertIfAbsent G0.children := by
  have core : (phase3 (phase1 f d.entries G0).allowedHosts
      (phase1 f d.entries G0).allowedGroups d.entries
      (phase2 (phase1 f d.entries G0).allowedHosts d.hostvars
        (phase1 f d.entries G0).graph)).children =
      (p3ChildAdds (allowedGroupsOf f d.entries) d.entries).foldl
        insertIfAbsent G0.children := by
    rw [phase3_children, phase2_children, phase1_graph_children,
      phase1_allowedGroups_eq]
  simp only [buildGraph]
  cases m with
  | false => rw [if_neg Bool.false_ne_true]; exact core
  | true =>
    rw [if_pos rfl,
      show ∀ G : Graph,
        (G.setVariable "all" "controller_metadata" (Val.obj (serverData cfg))).children =
          G.children from fun _ => rfl]
    exact core

theorem buildGraph_vars (d : RawDoc) (f : Filters) (m : Bool) (cfg : ConfigDoc)
    (G0 : Graph) : (buildGraph d f m cfg G0).vars =
      (varOpsOf d f m cfg).foldl setVarStep G0.vars := by
  have core : (phase3 (phase1 f d.entries G0).allowedHosts
      (phase1 f d.entries G0).allowedGroups d.entries
      (phase2 (phase1 f d.entries G0).allowedHosts d.hostvars
        (phase1 f d.entries G0).graph)).vars =
      (p3VarOps (allowedGroupsOf f d.entries) d.entries).foldl setVarStep
        ((p2VarOps (allowedHostsOf f d.entries) d.hostvars).foldl setVarStep G0.vars) := by
    rw [phase3_vars, phase2_vars, phase1_graph_vars, phase1_allowedHosts_eq,
      phase1_allowedGroups_eq]
  simp only [buildGraph]
  cases m with
  | false =>
    rw [if_neg Bool.false_ne_true, core, varOpsOf, if_neg Bool.false_ne_true,
      List.append_nil, List.foldl_append]
  | true =>
    rw [if_pos rfl,
      show ∀ G : Graph,
        (G.setVariable "all" "controller_metadata" (Val.obj (serverData cfg))).vars =
          setVarStep G.vars (("all", "controller_metadata"), Val.obj (serverData cfg))
        from fun _ => rfl,
      core, varOpsOf, if_pos rfl, List.foldl_append, List.foldl_append]
    rfl

/-! ### Membership characterizations -/

theorem mem_groupAdds {f : Filters} {es : List (String × GroupContent)} {g : String} :
    g ∈ groupAdds f es ↔ ∃ c, (g, c) ∈ es ∧ groupSkip f g = false ∧ g ≠ "_meta" := by
  constructor
  · intro hg
    rcases List.mem_map.mp hg with ⟨e, hef, he1⟩
    rcases List.mem_filter.mp hef with ⟨hes, hadm⟩
    have hadm' : groupSkip f e.1 = false ∧ e.1 ≠ "_meta" := by
      simpa [admittedEntry] using hadm
    subst he1
    exact ⟨e.2, by simpa using hes, hadm'.1, hadm'.2⟩
  · rintro ⟨c, hc, hskip, hmeta⟩
    refine List.mem_map.mpr ⟨(g, c), List.mem_filter.mpr ⟨hc, ?_⟩, rfl⟩
    simp [admittedEntry, hskip, hmeta]

theorem mem_allowedGroupsOf {f : Filters} {es : List (String × GroupContent)} {g : String} :
    g ∈ allowedGroupsOf f es ↔ ∃ c, (g, c) ∈ es ∧ groupSkip f g = false ∧ g ≠ "_meta" := by
  rw [allowedGroupsOf_eq, mem_foldl_insertIfAbsent, ← mem_groupAdds]
  simp

theorem meta_not_mem_allowedGroupsOf {f : Filters} {es : List (String × GroupContent)} :
    "_meta" ∉ allowedGroupsOf f es := by
  intro hmem
  rcases mem_allowedGroupsOf.mp hmem with ⟨c, _, _, hne⟩
  exact hne rfl

theorem mem_hostAccum {f : Filters} {es : List (String × GroupContent)} {h : String} :
    h ∈ hostAccum f es ↔
      ∃ g c, (g, c) ∈ es ∧ groupSkip f g = false ∧ g ≠ "_meta" ∧
        hostgroupPass f g = true ∧ h ∈ c.hosts ∧ hostPass f h = true := by
  constructor
  · intro hh
    rcases List.mem_flatMap.mp hh with ⟨e, hes, hin⟩
    by_cases hc : (admittedEntry f e && hostgroupPass f e.1) = true
    · rw [if_pos hc] at hin
      rcases List.mem_filter.mp hin with ⟨hmem, hpass⟩
      have hc' : (groupSkip f e.1 = false ∧ e.1 ≠ "_meta") ∧ hostgroupPass f e.1 = true := by
        simpa [admittedEntry] using hc
      exact ⟨e.1, e.2, by simpa using hes, hc'.1.1, hc'.1.2, hc'.2, hmem, hpass⟩
    · rw [if_neg hc] at hin
      cases hin
  · rintro ⟨g, c, hgc, hskip, hmeta, hgp, hmem, hpass⟩
    refine List.mem_flatMap.mpr ⟨(g, c), hgc, ?_⟩
    rw [if_pos (by simp [admittedEntry, hskip, hmeta, hgp])]
    exact List.mem_filter.mpr ⟨hmem, hpass⟩

theorem mem_allowedHostsOf {f : Filters} {es : List (String × GroupContent)} {h : String} :
    h ∈ allowedHostsOf f es ↔
      ∃ g c, (g, c) ∈ es ∧ groupSkip f g = false ∧ g ≠ "_meta" ∧
        hostgroupPass f g = true ∧ h ∈ c.hosts ∧ hostPass f h = true := by
  rw [allowedHostsOf_eq]
  exact mem_hostAccum

theorem mem_p2HostAdds {aH : List String} {hostvars : List (String × List (String × Val))}
    {h : String} : h ∈ p2HostAdds aH hostvars ↔
      (∃ vs, (h, vs) ∈ hostvars) ∧ h ∈ aH := by
  constructor
  · intro hh
    rcases List.mem_map.mp hh with ⟨hv, hvf, hv1⟩
    rcases List.mem_filter.mp hvf with ⟨hmem, hdec⟩
    subst hv1
    exact ⟨⟨hv.2, by simpa using hmem⟩, by simpa using hdec⟩
  · rintro ⟨⟨vs, hvs⟩, hmem⟩
    exact List.mem_map.mpr ⟨(h, vs), List.mem_filter.mpr ⟨hvs, by simpa using hmem⟩, rfl⟩

theorem mem_p3HostAdds {aH aG : List String} {es : List (String × GroupContent)}
    {h : String} : h ∈ p3HostAdds aH aG es ↔
      ∃ g c, (g, c) ∈ es ∧ g ∈ aG ∧ g ≠ "all" ∧ g ≠ "_meta" ∧ h ∈ c.hosts ∧ h ∈ aH := by
  constructor
  · intro hh
    rcases List.mem_flatMap.mp hh with ⟨e, hes, hin⟩
    by_cases hg : e.1 ∈ aG
    · rw [if_pos hg] at hin
      by_cases hb : (e.1 != "all" && e.1 != "_meta") = true
      · rw [if_pos hb] at hin
        rcases List.mem_filter.mp hin with ⟨hmem, hdec⟩
        have hb' : e.1 ≠ "all" ∧ e.1 ≠ "_meta" := by simpa using hb
        exact ⟨e.1, e.2, by simpa using hes, hg, hb'.1, hb'.2, hmem, by simpa using hdec⟩
      · rw [if_neg hb] at hin
        cases hin
    · rw [if_neg hg] at hin
      cases hin
  · rintro ⟨g, c, hgc, hg, hall, hmeta, hmem, hin⟩
    refine List.mem_flatMap.mpr ⟨(g, c), hgc, ?_⟩
    rw [if_pos hg, if_pos (by simp [hall, hmeta])]
    exact List.mem_filter.mpr ⟨hmem, by simpa using hin⟩

theorem mem_p3MemberAdds {aH aG : List String} {es : List (String × GroupContent)}
    {g h : String} : (g, h) ∈ p3MemberAdds aH aG es ↔
      ∃ c, (g, c) ∈ es ∧ g ∈ aG ∧ g ≠ "all" ∧ g ≠ "_meta" ∧ h ∈ c.hosts ∧ h ∈ aH := by
  constructor
  · intro hh
    rcases List.mem_flatMap.mp hh with ⟨e, hes, hin⟩
    by_cases hgm : e.1 ∈ aG
    · rw [if_pos hgm] at hin
      by_cases hb : (e.1 != "all" && e.1 != "_meta") = true
      · rw [if_pos hb] at hin
        rcases List.mem_map.mp hin with ⟨h', hf, hpair⟩
        rcases List.mem_filter.mp hf with ⟨hmem, hdec⟩
        have hb' : e.1 ≠ "all" ∧ e.1 ≠ "_meta" := by simpa using hb
        have hg1 : e.1 = g := congrArg Prod.fst hpair
        have hh1 : h' = h := congrArg Prod.snd hpair
        subst hg1
        subst hh1
        exact ⟨e.2, by simpa using hes, hgm, hb'.1, hb'.2, hmem, by simpa using hdec⟩
      · rw [if_neg hb] at hin
        cases hin
    · rw [if_neg hgm] at hin
      cases hin
  · rintro ⟨c, hgc, hg, hall, hmeta, hmem, hin⟩
    refine List.mem_flatMap.mpr ⟨(g, c), hgc, ?_⟩
    rw [if_pos hg, if_pos (by simp [hall, hmeta])]
    exact List.mem_map.mpr ⟨h, List.mem_filter.mpr ⟨hmem, by simpa using hin⟩, rfl⟩

theorem mem_p3ChildAdds {aG : List String} {es : List (String × GroupContent)}
    {g c : String} : (g, c) ∈ p3ChildAdds aG es ↔
      ∃ gc, (g, gc) ∈ es ∧ g ∈ aG ∧ g ≠ "all" ∧ g ≠ "_meta" ∧
        c ∈ gc.children ∧ c ∈ aG := by
  constructor
  · intro hh
    rcases List.mem_flatMap.mp hh with ⟨e, hes, hin⟩
    by_cases hgm : e.1 ∈ aG
    · rw [if_pos hgm] at hin
      by_cases hb : (e.1 != "all" && e.1 != "_meta") = true
      · rw [if_pos hb] at hin
        rcases List.mem_map.mp hin with ⟨c', hf, hpair⟩
        rcases List.mem_filter.mp hf with ⟨hmem, hdec⟩
        have hb' : e.1 ≠ "all" ∧ e.1 ≠ "_meta" := by simpa using hb
        have hg1 : e.1 = g := congrArg Prod.fst hpair
        have hc1 : c' = c := congrArg Prod.snd hpair
        subst hg1
        subst hc1
        exact ⟨e.2, by simpa using hes, hgm, hb'.1, hb'.2, hmem, by simpa using hdec⟩
      · rw [if_neg hb] at hin
        cases hin
    · rw [if_neg hgm] at hin
      cases hin
  · rintro ⟨gc, hgc, hg, hall, hmeta, hmem, hin⟩
    refine List.mem_flatMap.mpr ⟨(g, gc), hgc, ?_⟩
    rw [if_pos hg, if_pos (by simp [hall, hmeta])]
    exact List.mem_map.mpr ⟨c, List.mem_filter.mpr ⟨hmem, by simpa using hin⟩, rfl⟩

/-- Final host set of a build from the empty graph. -/
theorem mem_build_hosts {d : RawDoc} {f : Filters} {m : Bool} {cfg : ConfigDoc}
    {h : String} : h ∈ (buildGraph d f m cfg emptyGraph).hosts ↔
      ((∃ vs, (h, vs) ∈ d.hostvars) ∧ h ∈ allowedHostsOf f d.entries) ∨
      (∃ g c, (g, c) ∈ d.entries ∧ g ∈ allowedGroupsOf f d.entries ∧ g ≠ "all" ∧
        g ≠ "_meta" ∧ h ∈ c.hosts ∧ h ∈ allowedHostsOf f d.entries) := by
  rw [buildGraph_hosts, mem_foldl_insertIfAbsent, hostNodeAdds]
  simp only [emptyGraph, List.not_mem_nil, false_or, List.mem_append]
  rw [mem_p2HostAdds, mem_p3HostAdds]

/-- Final group set of a build from the empty graph. -/
theorem mem_build_groups {d : RawDoc} {f : Filters} {m : Bool} {cfg : ConfigDoc}
    {g : String} : g ∈ (buildGraph d f m cfg emptyGraph).groups ↔
      ∃ c, (g, c) ∈ d.entries ∧ groupSkip f g = false ∧ g ≠ "_meta" := by
  rw [buildGraph_groups, mem_foldl_insertIfAbsent, ← mem_groupAdds]
  simp [emptyGraph]

/-- Final membership-edge set of a build from the empty graph. -/
theorem mem_build_members {d : RawDoc} {f : Filters} {m : Bool} {cfg : ConfigDoc}
    {g h : String} : (g, h) ∈ (buildGraph d f m cfg emptyGraph).members ↔
      ∃ c, (g, c) ∈ d.entries ∧ g ∈ allowedGroupsOf f d.entries ∧ g ≠ "all" ∧
        g ≠ "_meta" ∧ h ∈ c.hosts ∧ h ∈ allowedHostsOf f d.entries := by
  rw [buildGraph_members, mem_foldl_insertIfAbsent, ← mem_p3MemberAdds]
  simp [emptyGraph]

/-- Final child-edge set of a build from the empty graph. -/
theorem mem_build_children {d : RawDoc} {f : Filters} {m : Bool} {cfg : ConfigDoc}
    {g c : String} : (g, c) ∈ (buildGraph d f m cfg emptyGraph).children ↔
      ∃ gc, (g, gc) ∈ d.entries ∧ g ∈ allowedGroupsOf f d.entries ∧ g ≠ "all" ∧
        g ≠ "_meta" ∧ c ∈ gc.children ∧ c ∈ allowedGroupsOf f d.entries := by
  rw [buildGraph_children, mem_foldl_insertIfAbsent, ← mem_p3ChildAdds]
  simp [emptyGraph]

/-! ### Lemmas: the variable store -/

theorem containsKey_cons (t : (String × String) × Val) (l : List ((String × String) × Val))
    (key : String × String) :
    containsKey (t :: l) key = (decide (t.1 = key) || containsKey l key) := by
  simp [containsKey, List.any_cons]

theorem containsKey_iff {l : List ((String × String) × Val)} {key : String × String} :
    containsKey l key = true ↔ ∃ v, (key, v) ∈ l := by
  constructor
  · intro hc
    rcases List.any_eq_true.mp hc with ⟨t, ht, hdec⟩
    have : t.1 = key := by simpa using hdec
    exact ⟨t.2, by rw [← this]; simpa using ht⟩
  · rintro ⟨v, hv⟩
    exact List.any_eq_true.mpr ⟨(key, v), hv, by simp⟩

theorem findVal_nil (key : String × String) : findVal [] key = none := rfl

theorem findVal_cons (t : (String × String) × Val) (l : List ((String × String) × Val))
    (key : String × String) :
    findVal (t :: l) key = if t.1 = key then some t.2 else findVal l key := by
  by_cases h : t.1 = key
  · rw [if_pos h]
    unfold findVal
    rw [List.find?_cons_of_pos _ (by simpa using h)]
    rfl
  · rw [if_neg h]
    unfold findVal
    rw [List.find?_cons_of_neg _ (by simpa using h)]

theorem findVal_map_update_self (key : String × String) (v : Val) :
    ∀ l : List ((String × String) × Val), containsKey l key = true →
      findVal (l.map (fun t => if t.1 = key then (key, v) else t)) key = some v := by
  intro l
  induction l with
  | nil => intro hc; cases hc
  | cons t rest ih =>
    intro hc
    rw [List.map_cons]
    by_cases ht : t.1 = key
    · rw [if_pos ht, findVal_cons, if_pos rfl]
    · rw [if_neg ht, findVal_cons, if_neg ht]
      apply ih
      rw [containsKey_cons] at hc
      rcases Bool.or_eq_true_iff.mp hc with h1 | h2
      · exact absurd (by simpa using h1) ht
      · exact h2

theorem findVal_map_update_other {key key' : String × String} (v : Val)
    (hne : key' ≠ key) (l : List ((String × String) × Val)) :
    findVal (l.map (fun t => if t.1 = key then (key, v) else t)) key' = findVal l key' := by
  induction l with
  | nil => rfl
  | cons t rest ih =>
    rw [List.map_cons]
    by_cases ht : t.1 = key
    · rw [if_pos ht, findVal_cons, findVal_cons, ih]
      rw [if_neg (fun h => hne h.symm), if_neg (by rw [ht]; exact fun h => hne h.symm)]
    · rw [if_neg ht, findVal_cons, findVal_cons, ih]

theorem findVal_append_self (key : String × String) (v : Val) :
    ∀ l : List ((String × String) × Val), containsKey l key = false →
      findVal (l ++ [(key, v)]) key = some v := by
  intro l
  induction l with
  | nil => intro _; rw [List.nil_append, findVal_cons, if_pos rfl]
  | cons t rest ih =>
    intro hc
    rw [containsKey_cons] at hc
    rcases Bool.or_eq_false_iff.mp hc with ⟨h1, h2⟩
    rw [List.cons_append, findVal_cons, if_neg (by simpa using h1)]
    exact ih h2

theorem findVal_append_other {key key' : String × String} (v : Val) (hne : key' ≠ key)
    (l : List ((String × String) × Val)) :
    findVal (l ++ [(key, v)]) key' = findVal l key' := by
  induction l with
  | nil =>
    rw [List.nil_append, findVal_cons, if_neg (fun h => hne h.symm)]
  | cons t rest ih =>
    rw [List.cons_append, findVal_cons, findVal_cons, ih]

theorem findVal_setVarList (l : List ((String × String) × Val))
    (key key' : String × String) (v : Val) :
    findVal (setVarList l key v) key' =
      if key' = key then some v else findVal l key' := by
  unfold setVarList
  by_cases hc : containsKey l key = true
  · rw [if_pos hc]
    by_cases hk : key' = key
    · subst hk
      rw [if_pos rfl]
      exact findVal_map_update_self key' v l hc
    · rw [if_neg hk]
      exact findVal_map_update_other v hk l
  · rw [if_neg hc]
    by_cases hk : key' = key
    · subst hk
      rw [if_pos rfl]
      exact findVal_append_self key' v l (Bool.not_eq_true _ ▸ hc)
    · rw [if_neg hk]
      exact findVal_append_other v hk l

theorem lastVal_nil (key : String × String) : lastVal [] key = none := rfl

theorem some_or_left {α : Type} (a : α) (b : Option α) : (some a).or b = some a := rfl

theorem lastVal_init (key : String × String) (l : List ((String × String) × Val)) :
    ∀ init : Option Val,
      l.foldl (fun acc t => if t.1 = key then some t.2 else acc) init =
        (lastVal l key).or init := by
  induction l with
  | nil => intro init; rfl
  | cons t rest ih =>
    intro init
    rw [List.foldl_cons, ih,
      show lastVal (t :: rest) key =
        rest.foldl (fun acc u => if u.1 = key then some u.2 else acc)
          (if t.1 = key then some t.2 else none) from rfl, ih]
    cases hrest : lastVal rest key with
    | some v => rw [some_or_left, some_or_left, some_or_left]
    | none =>
      rw [Option.none_or, Option.none_or]
      by_cases ht : t.1 = key
      · rw [if_pos ht, if_pos ht, some_or_left]
      · rw [if_neg ht, if_neg ht, Option.none_or]

theorem lastVal_cons (t : (String × String) × Val) (l : List ((String × String) × Val))
    (key : String × String) :
    lastVal (t :: l) key =
      (lastVal l key).or (if t.1 = key then some t.2 else none) := by
  rw [show lastVal (t :: l) key =
    l.foldl (fun acc u => if u.1 = key then some u.2 else acc)
      (if t.1 = key then some t.2 else none) from rfl, lastVal_init]

theorem lastVal_append (l1 l2 : List ((String × String) × Val)) (key : String × String) :
    lastVal (l1 ++ l2) key = (lastVal l2 key).or (lastVal l1 key) := by
  rw [lastVal, List.foldl_append, ← lastVal, lastVal_init]

theorem lastVal_singleton (t : (String × String) × Val) (key : String × String) :
    lastVal [t] key = if t.1 = key then some t.2 else none := by
  rw [lastVal_cons, lastVal_nil, Option.none_or]

theorem findVal_foldl_setVarStep (ops : List ((String × String) × Val))
    (key : String × String) :
    ∀ l : List ((String × String) × Val),
      findVal (ops.foldl setVarStep l) key = (lastVal ops key).or (findVal l key) := by
  induction ops with
  | nil => intro l; rfl
  | cons t rest ih =>
    intro l
    rw [List.foldl_cons, ih, lastVal_cons,
      show setVarStep l t = setVarList l t.1 t.2 from rfl, findVal_setVarList]
    cases hrest : lastVal rest key with
    | some v => rw [some_or_left, some_or_left, some_or_left]
    | none =>
      rw [Option.none_or, Option.none_or]
      by_cases hk : key = t.1
      · rw [if_pos hk, if_pos hk.symm, some_or_left]
      · rw [if_neg hk, if_neg (fun h => hk h.symm), Option.none_or]

theorem lastVal_eq_none_iff {ops : List ((String × String) × Val)}
    {key : String × String} :
    lastVal ops key = none ↔ ∀ v, (key, v) ∉ ops := by
  induction ops with
  | nil => simp [lastVal_nil]
  | cons t rest ih =>
    rw [lastVal_cons]
    constructor
    · intro h
      cases hrest : lastVal rest key with
      | some w =>
        rw [hrest, some_or_left] at h
        cases h
      | none =>
        rw [hrest, Option.none_or] at h
        have ht : t.1 ≠ key := by
          intro heq
          rw [if_pos heq] at h
          cases h
        intro v hv
        rcases List.mem_cons.mp hv with h1 | h2
        · exact ht (congrArg Prod.fst h1.symm)
        · exact (ih.mp hrest) v h2
    · intro h
      rw [ih.mpr (fun v hv => h v (List.mem_cons_of_mem t hv)), Option.none_or,
        if_neg (fun heq => h t.2 (by rw [← heq]; exact List.mem_cons_self t rest))]

theorem lastVal_mem (ops : List ((String × String) × Val)) (key : String × String) :
    ∀ v : Val, lastVal ops key = some v → (key, v) ∈ ops := by
  induction ops with
  | nil => intro v h; cases h
  | cons t rest ih =>
    intro v h
    rw [lastVal_cons] at h
    cases hrest : lastVal rest key with
    | some w =>
      rw [hrest, some_or_left] at h
      exact List.mem_cons_of_mem t (ih v (hrest.trans h))
    | none =>
      rw [hrest, Option.none_or] at h
      by_cases ht : t.1 = key
      · rw [if_pos ht] at h
        have hv : t.2 = v := Option.some.inj h
        have hkey : (key, v) = t := by
          rw [← ht, ← hv]
        rw [hkey]
        exact List.mem_cons_self t rest
      · rw [if_neg ht] at h
        cases h

theorem lastVal_eq_some_of_unique {ops : List ((String × String) × Val)}
    {key : String × String} {v : Val} (hmem : (key, v) ∈ ops)
    (huniq : ∀ v', (key, v') ∈ ops → v' = v) : lastVal ops key = some v := by
  cases hlast : lastVal ops key with
  | none => exact absurd hmem (lastVal_eq_none_iff.mp hlast v)
  | some w => rw [huniq w (lastVal_mem ops key w hlast)]

/-! ### Lemmas: replaying the variable writes changes nothing -/

theorem containsKey_setVarList_self (l : List ((String × String) × Val))
    (key : String × String) (v : Val) : containsKey (setVarList l key v) key = true := by
  unfold setVarList
  by_cases hc : containsKey l key = true
  · rw [if_pos hc]
    rcases containsKey_iff.mp hc with ⟨w, hw⟩
    exact containsKey_iff.mpr ⟨v, List.mem_map.mpr ⟨(key, w), hw, by simp⟩⟩
  · rw [if_neg hc]
    exact containsKey_iff.mpr ⟨v, List.mem_append.mpr (Or.inr (List.mem_singleton.mpr rfl))⟩

theorem containsKey_setVarList_mono {l : List ((String × String) × Val)}
    {key' : String × String} (key : String × String) (v : Val)
    (h : containsKey l key' = true) : containsKey (setVarList l key v) key' = true := by
  unfold setVarList
  by_cases hc : containsKey l key = true
  · rw [if_pos hc]
    rcases containsKey_iff.mp h with ⟨w, hw⟩
    by_cases hk : key' = key
    · subst hk
      exact containsKey_iff.mpr ⟨v, List.mem_map.mpr ⟨(key', w), hw, by simp⟩⟩
    · exact containsKey_iff.mpr ⟨w, List.mem_map.mpr ⟨(key', w), hw, by simp [hk]⟩⟩
  · rw [if_neg hc]
    rcases containsKey_iff.mp h with ⟨w, hw⟩
    exact containsKey_iff.mpr ⟨w, List.mem_append.mpr (Or.inl hw)⟩

theorem containsKey_foldl_mono (ops : List ((String × String) × Val)) :
    ∀ (l : List ((String × String) × Val)) (key : String × String),
      containsKey l key = true → containsKey (ops.foldl setVarStep l) key = true := by
  induction ops with
  | nil => intro l key h; exact h
  | cons t rest ih =>
    intro l key h
    rw [List.foldl_cons]
    exact ih _ _ (containsKey_setVarList_mono t.1 t.2 h)

theorem containsKey_foldl_of_mem (ops : List ((String × String) × Val)) :
    ∀ (l : List ((String × String) × Val)) (key : String × String) (v : Val),
      (key, v) ∈ ops → containsKey (ops.foldl setVarStep l) key = true := by
  induction ops with
  | nil => intro l key v h; cases h
  | cons t rest ih =>
    intro l key v h
    rw [List.foldl_cons]
    rcases List.mem_cons.mp h with h1 | h2
    · have hk : key = t.1 := congrArg Prod.fst h1
      subst hk
      exact containsKey_foldl_mono rest _ _ (containsKey_setVarList_self l t.1 t.2)
    · exact ih _ _ _ h2

/-- Every entry for `key` in the list carries value `v`. -/
def KeyedAll (l : List ((String × String) × Val)) (key : String × String) (v : Val) :
    Prop :=
  ∀ p ∈ l, p.1 = key → p.2 = v

theorem keyedAll_setVarList_self (l : List ((String × String) × Val))
    (key : String × String) (v : Val) : KeyedAll (setVarList l key v) key v := by
  intro p hp hpk
  unfold setVarList at hp
  by_cases hc : containsKey l key = true
  · rw [if_pos hc] at hp
    rcases List.mem_map.mp hp with ⟨q, hq, hqe⟩
    by_cases hqk : q.1 = key
    · rw [if_pos hqk] at hqe
      rw [← hqe]
    · rw [if_neg hqk] at hqe
      rw [← hqe] at hpk
      exact absurd hpk hqk
  · rw [if_neg hc] at hp
    rcases List.mem_append.mp hp with h1 | h2
    · have hmem : (key, p.2) ∈ l := by
        rw [← hpk]
        simpa using h1
      exact absurd (containsKey_iff.mpr ⟨p.2, hmem⟩) (by simpa using hc)
    · rw [List.mem_singleton.mp h2]

theorem keyedAll_setVarList_other {l : List ((String × String) × Val)}
    {key : String × String} {v : Val} (key' : String × String) (v' : Val)
    (hne : key' ≠ key) (h : KeyedAll l key v) : KeyedAll (setVarList l key' v') key v := by
  intro p hp hpk
  unfold setVarList at hp
  by_cases hc : containsKey l key' = true
  · rw [if_pos hc] at hp
    rcases List.mem_map.mp hp with ⟨q, hq, hqe⟩
    by_cases hqk : q.1 = key'
    · rw [if_pos hqk] at hqe
      rw [← hqe] at hpk
      exact absurd hpk hne
    · rw [if_neg hqk] at hqe
      rw [← hqe] at hpk ⊢
      exact h q hq hpk
  · rw [if_neg hc] at hp
    rcases List.mem_append.mp hp with h1 | h2
    · exact h p h1 hpk
    · rw [List.mem_singleton.mp h2] at hpk ⊢
      exact absurd hpk hne

theorem foldl_setVar_keyed (ops : List ((String × String) × Val))
    (key : String × String) :
    ∀ (l : List ((String × String) × Val)) (v : Val), lastVal ops key = some v →
      KeyedAll (ops.foldl setVarStep l) key v := by
  induction ops using List.reverseRecOn with
  | nil => intro l v h; cases h
  | append_singleton init t ih =>
    intro l v h
    rw [lastVal_append, lastVal_singleton] at h
    rw [List.foldl_append]
    by_cases ht : t.1 = key
    · rw [if_pos ht, some_or_left] at h
      have hv : t.2 = v := Option.some.inj h
      rw [show List.foldl setVarStep (List.foldl setVarStep l init) [t] =
        setVarStep (List.foldl setVarStep l init) t from rfl]
      rw [← ht, ← hv]
      exact keyedAll_setVarList_self _ _ _
    · rw [if_neg ht, Option.none_or] at h
      exact keyedAll_setVarList_other t.1 t.2 ht (ih l v h)

/-- Rewrite every entry's value to the last value its key receives in `ops`
(keeping it when the key is never written). -/
def overrideVars (l ops : List ((String × String) × Val)) :
    List ((String × String) × Val) :=
  l.map (fun p => (p.1, (lastVal ops p.1).getD p.2))

theorem overrideVars_nil (l : List ((String × String) × Val)) :
    overrideVars l [] = l := by
  simp [overrideVars, lastVal_nil]

theorem foldl_setVar_eq_override (ops : List ((String × String) × Val)) :
    ∀ l : List ((String × String) × Val), (∀ t ∈ ops, containsKey l t.1 = true) →
      ops.foldl setVarStep l = overrideVars l ops := by
  induction ops with
  | nil =>
    intro l _
    rw [overrideVars_nil]
    rfl
  | cons t rest ih =>
    intro l h
    have hct : containsKey l t.1 = true := h t (List.mem_cons_self t rest)
    rw [List.foldl_cons,
      ih (setVarStep l t)
        (fun u hu => containsKey_setVarList_mono t.1 t.2 (h u (List.mem_cons_of_mem t hu))),
      show setVarStep l t = setVarList l t.1 t.2 from rfl]
    unfold setVarList
    rw [if_pos hct]
    unfold overrideVars
    rw [List.map_map]
    apply List.map_congr_left
    intro p _
    by_cases hpt : p.1 = t.1
    · simp only [Function.comp_apply, if_pos hpt]
      rw [lastVal_cons, ← hpt, if_pos rfl]
      cases hrest : lastVal rest p.1 with
      | some w => simp [some_or_left]
      | none => simp [Option.none_or]
    · simp only [Function.comp_apply, if_neg hpt]
      rw [lastVal_cons, if_neg (fun heq => hpt heq.symm), Option.or_none]

theorem overrideVars_eq_self {l ops : List ((String × String) × Val)}
    (h : ∀ p ∈ l, ∀ v, lastVal ops p.1 = some v → p.2 = v) : overrideVars l ops = l := by
  unfold overrideVars
  conv_rhs => rw [← List.map_id l]
  apply List.map_congr_left
  intro p hp
  cases hov : lastVal ops p.1 with
  | none => simp
  | some v =>
    rw [Option.getD_some, ← h p hp v hov]
    simp

theorem foldl_setVar_idem (ops l : List ((String × String) × Val)) :
    ops.foldl setVarStep (ops.foldl setVarStep l) = ops.foldl setVarStep l := by
  rw [foldl_setVar_eq_override ops (ops.foldl setVarStep l)
    (fun t ht => containsKey_foldl_of_mem ops l t.1 t.2 (by simpa using ht))]
  exact overrideVars_eq_self (fun p hp v hv => foldl_setVar_keyed ops p.1 l v hv p hp rfl)

/-! ### Last helpers before the claims -/

theorem lookupVar_build (d : RawDoc) (f : Filters) (m : Bool) (cfg : ConfigDoc)
    (e k : String) :
    (buildGraph d f m cfg emptyGraph).lookupVar e k =
      lastVal (varOpsOf d f m cfg) (e, k) := by
  rw [show (buildGraph d f m cfg emptyGraph).lookupVar e k =
    findVal (buildGraph d f m cfg emptyGraph).vars (e, k) from rfl, buildGraph_vars,
    findVal_foldl_setVarStep,
    show findVal emptyGraph.vars (e, k) = none from rfl, Option.or_none]

theorem mem_p2VarOps {aH : List String} {hostvars : List (String × List (String × Val))}
    {e k : String} {v : Val} :
    ((e, k), v) ∈ p2VarOps aH hostvars ↔
      ∃ vs, (e, vs) ∈ hostvars ∧ e ∈ aH ∧ (k, v) ∈ vs := by
  constructor
  · intro hh
    rcases List.mem_flatMap.mp hh with ⟨hv, hvf, hin⟩
    rcases List.mem_filter.mp hvf with ⟨hvmem, hvdec⟩
    rcases List.mem_map.mp hin with ⟨kv, hkv, hpair⟩
    have h1 : (hv.1, kv.1) = (e, k) := congrArg Prod.fst hpair
    have he : hv.1 = e := congrArg Prod.fst h1
    have hk : kv.1 = k := congrArg Prod.snd h1
    have hv2 : kv.2 = v := congrArg Prod.snd hpair
    refine ⟨hv.2, by rw [← he]; simpa using hvmem, by rw [← he]; simpa using hvdec, ?_⟩
    rw [← hk, ← hv2]
    simpa using hkv
  · rintro ⟨vs, hvs, hmem, hkv⟩
    refine List.mem_flatMap.mpr ⟨(e, vs),
      List.mem_filter.mpr ⟨hvs, by simpa using hmem⟩, ?_⟩
    exact List.mem_map.mpr ⟨(k, v), hkv, rfl⟩

theorem mem_p3VarOps {aG : List String} {es : List (String × GroupContent)}
    {g k : String} {v : Val} :
    ((g, k), v) ∈ p3VarOps aG es ↔
      ∃ c, (g, c) ∈ es ∧ g ∈ aG ∧ g ≠ "_meta" ∧ (k, v) ∈ c.vars := by
  constructor
  · intro hh
    rcases List.mem_flatMap.mp hh with ⟨e, hes, hin⟩
    by_cases hgm : e.1 ∈ aG
    · rw [if_pos hgm] at hin
      by_cases hm : (e.1 != "_meta") = true
      · rw [if_pos hm] at hin
        rcases List.mem_map.mp hin with ⟨kv, hkv, hpair⟩
        have h1 : (e.1, kv.1) = (g, k) := congrArg Prod.fst hpair
        have he : e.1 = g := congrArg Prod.fst h1
        have hk : kv.1 = k := congrArg Prod.snd h1
        have hv2 : kv.2 = v := congrArg Prod.snd hpair
        refine ⟨e.2, by rw [← he]; simpa using hes, he ▸ hgm, by rw [← he]; simpa using hm, ?_⟩
        rw [← hk, ← hv2]
        simpa using hkv
      · rw [if_neg hm] at hin
        cases hin
    · rw [if_neg hgm] at hin
      cases hin
  · rintro ⟨c, hgc, hg, hmeta, hkv⟩
    refine List.mem_flatMap.mpr ⟨(g, c), hgc, ?_⟩
    rw [if_pos hg, if_pos (by simpa using hmeta)]
    exact List.mem_map.mpr ⟨(k, v), hkv, rfl⟩

theorem nodup_keys_eq {α β : Type} {l : List (α × β)} (hn : (l.map Prod.fst).Nodup)
    {a : α} {b b' : β} (h1 : (a, b) ∈ l) (h2 : (a, b') ∈ l) : b = b' := by
  induction l with
  | nil => cases h1
  | cons t rest ih =>
    rw [List.map_cons] at hn
    have hn' := List.nodup_cons.mp hn
    rcases List.mem_cons.mp h1 with e1 | m1 <;> rcases List.mem_cons.mp h2 with e2 | m2
    · exact congrArg Prod.snd (e1.trans e2.symm)
    · exfalso
      apply hn'.1
      rw [← congrArg Prod.fst e1]
      exact List.mem_map.mpr ⟨(a, b'), m2, rfl⟩
    · exfalso
      apply hn'.1
      rw [← congrArg Prod.fst e2]
      exact List.mem_map.mpr ⟨(a, b), m1, rfl⟩
    · exact ih hn'.2 m1 m2

theorem groupSkip_congr {f1 f2 : Filters} (h : f1.groupsPattern = f2.groupsPattern) :
    groupSkip f1 = groupSkip f2 := by
  funext g
  unfold groupSkip
  rw [h]

theorem admittedEntry_congr {f1 f2 : Filters} (h : f1.groupsPattern = f2.groupsPattern) :
    admittedEntry f1 = admittedEntry f2 := by
  funext e
  unfold admittedEntry
  rw [groupSkip_congr h]

theorem groupAdds_congr {f1 f2 : Filters} (es : List (String × GroupContent))
    (h : f1.groupsPattern = f2.groupsPattern) : groupAdds f1 es = groupAdds f2 es := by
  unfold groupAdds
  rw [admittedEntry_congr h]

theorem allowedGroupsOf_congr {f1 f2 : Filters} (es : List (String × GroupContent))
    (h : f1.groupsPattern = f2.groupsPattern) :
    allowedGroupsOf f1 es = allowedGroupsOf f2 es := by
  rw [allowedGroupsOf_eq, allowedGroupsOf_eq, groupAdds_congr es h]

theorem groupSkip_eq_false_iff {f : Filters} {g : String} :
    groupSkip f g = false ↔
      f.groupsPattern = none ∨ (∃ p, f.groupsPattern = some p ∧ p g = true) ∨
        g = "all" := by
  unfold groupSkip
  cases hp : f.groupsPattern with
  | none => simp [hp]
  | some p => cases hpg : p g <;> simp [hp, hpg]

/-! ### The claims -/

/-- C6: a top-level key of the raw document is registered as a group in the
final graph exactly when it is not `_meta` and either no group pattern is
set, or the pattern matches the key, or the key is the reserved root group
name `all`; in particular `_meta` never becomes a group under any filter
setting. -/
theorem c6_group_registration (d : RawDoc) (f : Filters) (m : Bool) (cfg : ConfigDoc)
    (g : String) :
    g ∈ (buildGraph d f m cfg emptyGraph).groups ↔
      (∃ c, (g, c) ∈ d.entries) ∧ g ≠ "_meta" ∧
        (f.groupsPattern = none ∨ (∃ p, f.groupsPattern = some p ∧ p g = true) ∨
          g = "all") := by
  rw [mem_build_groups]
  constructor
  · rintro ⟨c, hc, hskip, hmeta⟩
    exact ⟨⟨c, hc⟩, hmeta, groupSkip_eq_false_iff.mp hskip⟩
  · rintro ⟨⟨c, hc⟩, hmeta, hadm⟩
    exact ⟨c, hc, groupSkip_eq_false_iff.mpr hadm, hmeta⟩

/-- C2: filtering is referentially consistent — every host node of the final
graph is in the allowed-hosts set, every group node is in the allowed-groups
set, every group→host membership edge joins an allowed group to an allowed
host, and every parent→child edge joins two allowed groups; hence a name
absent from its allowed set never appears in the graph, even through edges. -/
theorem c2_referential_integrity (d : RawDoc) (f : Filters) (m : Bool)
    (cfg : ConfigDoc) :
    (∀ h ∈ (buildGraph d f m cfg emptyGraph).hosts, h ∈ allowedHostsOf f d.entries) ∧
    (∀ g ∈ (buildGraph d f m cfg emptyGraph).groups, g ∈ allowedGroupsOf f d.entries) ∧
    (∀ e ∈ (buildGraph d f m cfg emptyGraph).members,
      e.1 ∈ allowedGroupsOf f d.entries ∧ e.2 ∈ allowedHostsOf f d.entries) ∧
    (∀ e ∈ (buildGraph d f m cfg emptyGraph).children,
      e.1 ∈ allowedGroupsOf f d.entries ∧ e.2 ∈ allowedGroupsOf f d.entries) := by
  refine ⟨?_, ?_, ?_, ?_⟩
  · intro h hh
    rcases mem_build_hosts.mp hh with ⟨_, hall⟩ | ⟨_, _, _, _, _, _, _, hall⟩ <;>
      exact hall
  · intro g hg
    rcases mem_build_groups.mp hg with ⟨c, hc, h1, h2⟩
    exact mem_allowedGroupsOf.mpr ⟨c, hc, h1, h2⟩
  · intro e he
    have he' : (e.1, e.2) ∈ (buildGraph d f m cfg emptyGraph).members := by
      simpa using he
    rcases mem_build_members.mp he' with ⟨c, _, hg, _, _, _, hH⟩
    exact ⟨hg, hH⟩
  · intro e he
    have he' : (e.1, e.2) ∈ (buildGraph d f m cfg emptyGraph).children := by
      simpa using he
    rcases mem_build_children.mp he' with ⟨gc, _, hg, _, _, _, hc⟩
    exact ⟨hg, hc⟩

/-- C2 witness: on the document {g1: {hosts:[h1]}, hostvars:{h1:{}}} with no
filters, `h1` is a graph host and the theorem places it in allowed-hosts. -/
theorem c2_witness :
    "h1" ∈ allowedHostsOf ⟨none, none, none⟩ [("g1", ⟨["h1"], [], []⟩)] :=
  (c2_referential_integrity ⟨[("g1", ⟨["h1"], [], []⟩)], [("h1", [])]⟩
    ⟨none, none, none⟩ false {}).1 "h1" (by decide)

/-- C1 counterexample: for the raw document {g1: {hosts:[h1]}} whose
`_meta.hostvars` is empty and with no filters set, `h1` is present in the
final graph's host set (the third loop's `add_host(host_name, group_name)`
creates it) although it does not appear in `_meta.hostvars` — refuting the
claim's "present only if it appears in `_meta.hostvars`". -/
theorem c1_counterexample :
    "h1" ∈ (buildGraph ⟨[("g1", ⟨["h1"], [], []⟩)], []⟩ ⟨none, none, none⟩ false {}
        emptyGraph).hosts ∧
      ∀ vs, ("h1", vs) ∉ (⟨[("g1", ⟨["h1"], [], []⟩)], []⟩ : RawDoc).hostvars := by
  refine ⟨by decide, ?_⟩
  intro vs h
  cases h

/-- C1 (amended): a host is present in the final graph iff it is in the
allowed-hosts set (host filter unset or matching, and listed under at least
one group passing the group- and hostgroup-admission rules) and, in
addition, it either appears in `_meta.hostvars` or is listed in the `hosts`
list of an admitted group other than the root group `all`. -/
theorem c1_amended_host_presence (d : RawDoc) (f : Filters) (m : Bool)
    (cfg : ConfigDoc) (h : String) :
    h ∈ (buildGraph d f m cfg emptyGraph).hosts ↔
      h ∈ allowedHostsOf f d.entries ∧
        ((∃ vs, (h, vs) ∈ d.hostvars) ∨
          ∃ g c, (g, c) ∈ d.entries ∧ g ∈ allowedGroupsOf f d.entries ∧ g ≠ "all" ∧
            h ∈ c.hosts) := by
  rw [mem_build_hosts]
  constructor
  · rintro (⟨hvs, hall⟩ | ⟨g, c, hgc, hg, hgall, _, hmem, hall⟩)
    · exact ⟨hall, Or.inl hvs⟩
    · exact ⟨hall, Or.inr ⟨g, c, hgc, hg, hgall, hmem⟩⟩
  · rintro ⟨hall, hvs | ⟨g, c, hgc, hg, hgall, hmem⟩⟩
    · exact Or.inl ⟨hvs, hall⟩
    · refine Or.inr ⟨g, c, hgc, hg, hgall, ?_, hmem, hall⟩
      rcases mem_allowedGroupsOf.mp hg with ⟨_, _, _, hne⟩
      exact hne

/-- C10: the root-group exemption is only in the groups filter; with a
hostgroups filter set that does not match `all`, a host listed only under
the root group's `hosts` list is excluded from allowed-hosts and absent from
the final graph. -/
theorem c10_root_hosts_not_exempt (d : RawDoc) (f : Filters) (m : Bool)
    (cfg : ConfigDoc) (p : String → Bool) (h : String)
    (hp : f.hostgroupsPattern = some p) (hall : p "all" = false)
    (honly : ∀ e ∈ d.entries, h ∈ e.2.hosts → e.1 = "all") :
    h ∉ allowedHostsOf f d.entries ∧
      h ∉ (buildGraph d f m cfg emptyGraph).hosts := by
  have hnot : h ∉ allowedHostsOf f d.entries := by
    intro hmem
    rcases mem_allowedHostsOf.mp hmem with ⟨g, c, hgc, _, _, hgp, hhost, _⟩
    have hg : g = "all" := honly (g, c) hgc hhost
    rw [hg] at hgp
    simp [hostgroupPass, hp, hall] at hgp
  refine ⟨hnot, ?_⟩
  intro hmem
  rcases mem_build_hosts.mp hmem with ⟨_, hall'⟩ | ⟨_, _, _, _, _, _, _, hall'⟩ <;>
    exact hnot hall'

/-- C10 witness: with hostgroups filter `g1` (not matching `all`) and a
document whose only host `h2` is listed only under `all`, `h2` is excluded. -/
theorem c10_witness :
    "h2" ∉ allowedHostsOf ⟨none, some (fun s => s == "g1"), none⟩
        [("all", ⟨["h2"], [], []⟩)] ∧
      "h2" ∉ (buildGraph ⟨[("all", ⟨["h2"], [], []⟩)], [("h2", [])]⟩
        ⟨none, some (fun s => s == "g1"), none⟩ false {} emptyGraph).hosts :=
  c10_root_hosts_not_exempt ⟨[("all", ⟨["h2"], [], []⟩)], [("h2", [])]⟩
    ⟨none, some (fun s => s == "g1"), none⟩ false {} (fun s => s == "g1") "h2"
    rfl (by decide) (by decide)

/-- C7: when the name-resolution query returns an empty `results` list, the
run fails with the `IndexError` of `results[0]` (a Python `LookupError`) and
neither the inventory-script endpoint nor the config endpoint is ever
queried. -/
theorem c7_empty_results_fatal (opts : Options) (d : RawDoc) (cfg : ConfigDoc)
    (hvalid : opts.inventoryNameValid = true) :
    (runParse opts [] d cfg).1 = Except.error RunError.lookupIndexError ∧
      Endpoint.inventoryScript ∉ (runParse opts [] d cfg).2 ∧
      Endpoint.config ∉ (runParse opts [] d cfg).2 := by
  unfold runParse
  rw [hvalid]
  simp

/-- C7 witness: default options, empty document. -/
theorem c7_witness :
    (runParse {} [] ⟨[], []⟩ {}).1 = Except.error RunError.lookupIndexError ∧
      Endpoint.inventoryScript ∉ (runParse {} [] ⟨[], []⟩ {}).2 ∧
      Endpoint.config ∉ (runParse {} [] ⟨[], []⟩ {}).2 :=
  c7_empty_results_fatal {} ⟨[], []⟩ {} rfl

/-- C4 counterexample: with an invalid hosts-filter regex, the run does fail
with the regex-compilation error, but its request trace is
`[nameResolution]`, not `[]` — a network request (the name-resolution query
of line 224) is performed before the filters are compiled at lines 232-246,
refuting "before any network request is performed". -/
theorem c4_counterexample :
    (runParse ⟨true, some RegexSrc.invalid, none, none, false⟩ [1] ⟨[], []⟩ {}).1 =
        Except.error RunError.regexError ∧
      (runParse ⟨true, some RegexSrc.invalid, none, none, false⟩ [1] ⟨[], []⟩ {}).2 =
        [Endpoint.nameResolution] ∧
      ([Endpoint.nameResolution] : List Endpoint) ≠ [] := by
  refine ⟨rfl, rfl, by simp⟩

/-- C4 (amended): whenever any configured filter regular expression is
invalid (and the run reaches filter compilation: the inventory name is
convertible and name resolution returned results), the run fails with the
regex-compilation error before the inventory-script endpoint is queried —
but after the name-resolution request has already been performed. -/
theorem c4_amended_regex_error (opts : Options) (nameResults : List Nat) (d : RawDoc)
    (cfg : ConfigDoc) (hvalid : opts.inventoryNameValid = true)
    (hres : nameResults ≠ [])
    (hinv : opts.hostsFilter = some RegexSrc.invalid ∨
      opts.hostgroupsFilter = some RegexSrc.invalid ∨
      opts.groupsFilter = some RegexSrc.invalid) :
    (runParse opts nameResults d cfg).1 = Except.error RunError.regexError ∧
      (runParse opts nameResults d cfg).2 = [Endpoint.nameResolution] := by
  obtain ⟨a, t, rfl⟩ : ∃ a t, nameResults = a :: t := by
    cases nameResults with
    | nil => exact absurd rfl hres
    | cons a t => exact ⟨a, t, rfl⟩
  have herr : ∀ x : Option RegexSrc, ∀ e : RunError,
      compileFilter x = Except.error e → e = RunError.regexError := by
    intro x e hx
    cases x with
    | none => cases hx
    | some src =>
      cases src with
      | valid mf => cases hx
      | invalid => exact (Except.error.injEq _ _ ▸ hx).symm ▸ rfl
  unfold runParse
  rw [hvalid]
  rw [if_neg (by simp)]
  rw [if_neg (by simp)]
  cases hh : compileFilter opts.hostsFilter with
  | error e => rw [herr _ _ hh]; exact ⟨rfl, rfl⟩
  | ok hp =>
    cases hhg : compileFilter opts.hostgroupsFilter with
    | error e => rw [herr _ _ hhg]; exact ⟨rfl, rfl⟩
    | ok hgp =>
      cases hg : compileFilter opts.groupsFilter with
      | error e => rw [herr _ _ hg]; exact ⟨rfl, rfl⟩
      | ok gp =>
        exfalso
        rcases hinv with h1 | h2 | h3
        · rw [h1] at hh
          cases hh
        · rw [h2] at hhg
          cases hhg
        · rw [h3] at hg
          cases hg

/-- C4 amended witness: invalid groups filter, name resolution returning one
result. -/
theorem c4_amended_witness :
    (runParse ⟨true, none, none, some RegexSrc.invalid, false⟩ [1] ⟨[], []⟩ {}).1 =
        Except.error RunError.regexError ∧
      (runParse ⟨true, none, none, some RegexSrc.invalid, false⟩ [1] ⟨[], []⟩ {}).2 =
        [Endpoint.nameResolution] :=
  c4_amended_regex_error ⟨true, none, none, some RegexSrc.invalid, false⟩ [1] ⟨[], []⟩
    {} rfl (by simp) (Or.inr (Or.inr rfl))

/-- C3 counterexample: with groups filter `g1`, the document's group `g2`
(carrying var `a = "1"`) is not admitted: the third loop skips it entirely
(line 277 `if group_name not in allowed_groups: continue`), so its `vars`
are never copied — refuting "regardless of whether the group was admitted by
the filters". -/
theorem c3_counterexample :
    (buildGraph ⟨[("g2", ⟨[], [], [("a", Val.str "1")]⟩)], []⟩
        ⟨none, none, some (fun s => s == "g1")⟩ false {} emptyGraph).lookupVar "g2" "a" =
        none ∧
      ("g2", (⟨[], [], [("a", Val.str "1")]⟩ : GroupContent)) ∈
        (⟨[("g2", ⟨[], [], [("a", Val.str "1")]⟩)], []⟩ : RawDoc).entries ∧
      "g2" ≠ "_meta" := by
  refine ⟨rfl, List.mem_singleton.mpr rfl, by simp⟩

/-- C3 (amended): in phase 3, for every top-level group key except `_meta`
that is admitted by the filters — the root group `all` included — the
group's `vars` mapping is copied onto that group's variables in the final
graph (stated for documents with dict-unique top-level keys and dict-unique
var names, metadata augmentation off). -/
theorem c3_amended_admitted_group_vars (d : RawDoc) (f : Filters) (cfg : ConfigDoc)
    (g : String) (c : GroupContent) (k : String) (v : Val)
    (hne : (d.entries.map Prod.fst).Nodup)
    (hgc : (g, c) ∈ d.entries)
    (hadm : g ∈ allowedGroupsOf f d.entries)
    (hnv : (c.vars.map Prod.fst).Nodup)
    (hkv : (k, v) ∈ c.vars) :
    (buildGraph d f false cfg emptyGraph).lookupVar g k = some v := by
  rw [lookupVar_build, varOpsOf, if_neg Bool.false_ne_true, List.append_nil,
    lastVal_append]
  have hmeta : g ≠ "_meta" := by
    rcases mem_allowedGroupsOf.mp hadm with ⟨_, _, _, hx⟩
    exact hx
  have hlast : lastVal (p3VarOps (allowedGroupsOf f d.entries) d.entries) (g, k) =
      some v := by
    apply lastVal_eq_some_of_unique
    · exact mem_p3VarOps.mpr ⟨c, hgc, hadm, hmeta, hkv⟩
    · intro v' hv'
      rcases mem_p3VarOps.mp hv' with ⟨c', hgc', _, _, hkv'⟩
      have hc : c' = c := nodup_keys_eq hne hgc' hgc
      rw [hc] at hkv'
      exact nodup_keys_eq hnv hkv' hkv
  rw [hlast, some_or_left]

/-- C3 amended witness: group `g1` with var `a = "1"`, no filters. -/
theorem c3_amended_witness :
    (buildGraph ⟨[("g1", ⟨[], [], [("a", Val.str "1")]⟩)], []⟩ ⟨none, none, none⟩
      false {} emptyGraph).lookupVar "g1" "a" = some (Val.str "1") :=
  c3_amended_admitted_group_vars ⟨[("g1", ⟨[], [], [("a", Val.str "1")]⟩)], []⟩
    ⟨none, none, none⟩ {} "g1" ⟨[], [], [("a", Val.str "1")]⟩ "a" (Val.str "1")
    (by simp) (List.mem_singleton.mpr rfl) (by decide) (by simp)
    (List.mem_singleton.mpr rfl)

/-- C9: with metadata enabled, the single variable `controller_metadata` on
the root group `all` is exactly the three-key mapping of `license_type`
(from `license_info.license_type`, `"unknown"` when absent), `version` and
`ansible_version` (each `"unknown"` when absent); with metadata disabled the
variable is never set (stated for documents that do not themselves define a
`controller_metadata` variable). -/
theorem c9_metadata_variable (d : RawDoc) (f : Filters) (cfg : ConfigDoc)
    (hdoc : ∀ e ∈ d.entries, ∀ v, ("controller_metadata", v) ∉ e.2.vars)
    (hhv : ∀ hv ∈ d.hostvars, ∀ v, ("controller_metadata", v) ∉ hv.2) :
    (buildGraph d f true cfg emptyGraph).lookupVar "all" "controller_metadata" =
        some (Val.obj
          [("license_type",
            (lookupField (cfg.license_info.getD []) "license_type").getD
              (Val.str "unknown")),
           ("version", cfg.version.getD (Val.str "unknown")),
           ("ansible_version", cfg.ansible_version.getD (Val.str "unknown"))]) ∧
      (buildGraph d f false cfg emptyGraph).lookupVar "all" "controller_metadata" =
        none := by
  constructor
  · rw [lookupVar_build, varOpsOf, if_pos rfl, lastVal_append, lastVal_append,
      lastVal_singleton, if_pos rfl]
    simp only [some_or_left]
    rfl
  · rw [lookupVar_build, varOpsOf, if_neg Bool.false_ne_true, List.append_nil,
      lastVal_append]
    have h3 : lastVal (p3VarOps (allowedGroupsOf f d.entries) d.entries)
        ("all", "controller_metadata") = none :=
      lastVal_eq_none_iff.mpr (fun v hv => by
        rcases mem_p3VarOps.mp hv with ⟨c, hgc, _, _, hkv⟩
        exact hdoc ("all", c) hgc v hkv)
    have h2 : lastVal (p2VarOps (allowedHostsOf f d.entries) d.hostvars)
        ("all", "controller_metadata") = none :=
      lastVal_eq_none_iff.mpr (fun v hv => by
        rcases mem_p2VarOps.mp hv with ⟨vs, hvs, _, hkv⟩
        exact hhv ("all", vs) hvs v hkv)
    rw [h3, h2, Option.none_or]

/-- C9 witness: a config with `license_type = basic`, `version = 4.0` and no
`ansible_version`, on the empty document. -/
theorem c9_witness :
    (buildGraph ⟨[], []⟩ ⟨none, none, none⟩ true
        ⟨some [("license_type", Val.str "basic")], some (Val.str "4.0"), none⟩
        emptyGraph).lookupVar "all" "controller_metadata" =
      some (Val.obj [("license_type", Val.str "basic"),
        ("version", Val.str "4.0"), ("ansible_version", Val.str "unknown")]) ∧
    (buildGraph ⟨[], []⟩ ⟨none, none, none⟩ false
        ⟨some [("license_type", Val.str "basic")], some (Val.str "4.0"), none⟩
        emptyGraph).lookupVar "all" "controller_metadata" = none :=
  c9_metadata_variable ⟨[], []⟩ ⟨none, none, none⟩
    ⟨some [("license_type", Val.str "basic")], some (Val.str "4.0"), none⟩
    (fun e he => absurd he (List.not_mem_nil e))
    (fun hv hhv => absurd hhv (List.not_mem_nil hv))

/-- C5 counterexample: the document {g: {hosts:[g]}, _meta.hostvars:
{g: {ip:"1"}}} has a host named like its group.  With no filters the second
loop's `set_variable("g", "ip", "1")` lands on the entity named `g` (in
Ansible, groups take precedence), so `g` carries `ip = "1"`; with a hosts
filter matching nothing it carries no variables — two runs differing only in
the hosts filter assign different variables to the admitted group `g`. -/
theorem c5_counterexample :
    "g" ∈ allowedGroupsOf ⟨none, none, none⟩ [("g", ⟨["g"], [], []⟩)] ∧
    "g" ∈ allowedGroupsOf ⟨some (fun _ => false), none, none⟩
      [("g", ⟨["g"], [], []⟩)] ∧
    (⟨none, none, none⟩ : Filters).groupsPattern =
      (⟨some (fun _ => false), none, none⟩ : Filters).groupsPattern ∧
    (⟨none, none, none⟩ : Filters).hostgroupsPattern =
      (⟨some (fun _ => false), none, none⟩ : Filters).hostgroupsPattern ∧
    (buildGraph ⟨[("g", ⟨["g"], [], []⟩)], [("g", [("ip", Val.str "1")])]⟩
      ⟨none, none, none⟩ false {} emptyGraph).lookupVar "g" "ip" =
        some (Val.str "1") ∧
    (buildGraph ⟨[("g", ⟨["g"], [], []⟩)], [("g", [("ip", Val.str "1")])]⟩
      ⟨some (fun _ => false), none, none⟩ false {} emptyGraph).lookupVar "g" "ip" =
        none := by
  exact ⟨by decide, by decide, rfl, rfl, rfl, rfl⟩

/-- C5 (amended): the variables of an entity in the final graph are the same
for every setting of the hosts filter and the hostgroups filter, provided
the entity's name does not occur as a host name in `_meta.hostvars` (the
collision in the counterexample); in particular an admitted group's own
`vars` are applied even when all its hosts are filtered out. -/
theorem c5_amended_group_vars_independent (d : RawDoc) (f1 f2 : Filters) (m : Bool)
    (cfg : ConfigDoc) (g k : String)
    (hgroups : f1.groupsPattern = f2.groupsPattern)
    (hnothost : ∀ vs, (g, vs) ∉ d.hostvars) :
    (buildGraph d f1 m cfg emptyGraph).lookupVar g k =
      (buildGraph d f2 m cfg emptyGraph).lookupVar g k := by
  rw [lookupVar_build, lookupVar_build, varOpsOf, varOpsOf,
    allowedGroupsOf_congr d.entries hgroups]
  rw [lastVal_append (p2VarOps (allowedHostsOf f1 d.entries) d.hostvars ++
        p3VarOps (allowedGroupsOf f2 d.entries) d.entries) _ _,
    lastVal_append (p2VarOps (allowedHostsOf f2 d.entries) d.hostvars ++
        p3VarOps (allowedGroupsOf f2 d.entries) d.entries) _ _,
    lastVal_append (p2VarOps (allowedHostsOf f1 d.entries) d.hostvars) _ _,
    lastVal_append (p2VarOps (allowedHostsOf f2 d.entries) d.hostvars) _ _]
  have h1 : lastVal (p2VarOps (allowedHostsOf f1 d.entries) d.hostvars) (g, k) =
      none :=
    lastVal_eq_none_iff.mpr (fun v hv => by
      rcases mem_p2VarOps.mp hv with ⟨vs, hvs, _, _⟩
      exact hnothost vs hvs)
  have h2 : lastVal (p2VarOps (allowedHostsOf f2 d.entries) d.hostvars) (g, k) =
      none :=
    lastVal_eq_none_iff.mpr (fun v hv => by
      rcases mem_p2VarOps.mp hv with ⟨vs, hvs, _, _⟩
      exact hnothost vs hvs)
  rw [h1, h2]

/-- C5 amended witness: group `g1` with var `env = prod` and host `h1`; the
group's variable is unchanged when the hosts filter drops every host. -/
theorem c5_amended_witness :
    (buildGraph ⟨[("g1", ⟨["h1"], [], [("env", Val.str "prod")]⟩)], [("h1", [])]⟩
      ⟨none, none, none⟩ false {} emptyGraph).lookupVar "g1" "env" =
    (buildGraph ⟨[("g1", ⟨["h1"], [], [("env", Val.str "prod")]⟩)], [("h1", [])]⟩
      ⟨some (fun _ => false), none, none⟩ false {} emptyGraph).lookupVar "g1" "env" :=
  c5_amended_group_vars_independent
    ⟨[("g1", ⟨["h1"], [], [("env", Val.str "prod")]⟩)], [("h1", [])]⟩
    ⟨none, none, none⟩ ⟨some (fun _ => false), none, none⟩ false {} "g1" "env" rfl
    (fun vs hv => by
      have h := List.mem_singleton.mp hv
      have h1 : "g1" = "h1" := congrArg Prod.fst h
      exact absurd h1 (by decide))

/-- C8: the graph build is deterministic and idempotent — replaying the
whole build (all three loops and the optional metadata write) on its own
output changes nothing: same groups, hosts, edges and variables. -/
theorem c8_build_idempotent (d : RawDoc) (f : Filters) (m : Bool) (cfg : ConfigDoc) :
    buildGraph d f m cfg (buildGraph d f m cfg emptyGraph) =
      buildGraph d f m cfg emptyGraph := by
  apply Graph.ext
  · rw [buildGraph_groups, buildGraph_groups]
    exact foldl_insertIfAbsent_idem _ _
  · rw [buildGraph_hosts, buildGraph_hosts]
    exact foldl_insertIfAbsent_idem _ _
  · rw [buildGraph_members, buildGraph_members]
    exact foldl_insertIfAbsent_idem _ _
  · rw [buildGraph_children, buildGraph_children]
    exact foldl_insertIfAbsent_idem _ _
  · rw [buildGraph_vars, buildGraph_vars]
    exact foldl_setVar_idem _ _

end ControllerX
